import Mathlib

/-!
Verification of the request-correlation registry (`src/internal/registry.rs`)
of the EventStoreDB rust client.

The registry code is embedded shallowly:

* `Uuid` values (request ids, operation ids, connection ids) are modelled as
  natural numbers.  `Uuid::new_v4()` freshness is modelled by a counter
  (`fresh`) threaded through the `Requests` state: every generated id is the
  current counter value and the counter then increases, which captures the
  global-uniqueness assumption on v4 UUIDs.
* The three `HashMap`s of `Requests` are modelled as association lists with
  `alookup` / `ainsert` (replace-or-append) / `aremove`; `Vec<Uuid>` is a
  `List Nat` with `push` as append.
* Rust panics (`unwrap` / `expect` on `None`) are modelled as `Option.none`
  results of the embedded functions.
* Calls that the registry performs on its collaborators (`op.failed`,
  `conn.enqueue_all`, invoking `send` / `receive` / `retry` /
  `check_and_retry`) are recorded as `Event`s so that theorems can speak
  about which callbacks were invoked and which failures were signalled.
* Operation callbacks are modelled as straight-line programs over the
  `Session` capability (`SOp`), which is exactly the interface
  `SessionImpl` offers to an operation; popped `Tracking` values are held in
  a `pocket` list, mirroring the fact that a Rust callback owns the
  `Tracking` values it popped and moves them back through `reuse`.
* The `BytesMut` scratch encode buffer is not modelled: it is opaque to the
  registry (written and consumed entirely inside operation callbacks) and no
  claim mentions it.

Types defined in `internal/operations.rs` / `internal/connection.rs` /
`internal/package.rs` are not part of the sources; they are modelled from
the specification where marked.
-/

namespace Registryv

/-- Command identifier of a wire package.  The registry only discriminates
`BadRequest`, `NotAuthenticated` and `NotHandled`; every other command code
is represented by `other`. -/
inductive Cmd where
  | badRequest
  | notAuthenticated
  | notHandled
  | other (code : Nat)
deriving DecidableEq, Repr

/-- Modelled from the spec: reason codes of the decoded
`messages::NotHandled` message; `notMaster` is the cluster-topology-redirect
reason, the remaining reasons mean "server not ready / overloaded". -/
inductive NotHandledReason where
  | notMaster
  | notReady
  | tooBusy
deriving DecidableEq, Repr

/-- Modelled from the spec: a decoded wire package (`internal/package.rs` is
not part of the sources).  `text` is what `to_text()` returns; the
`to_message::<NotHandled>()` decode helper is modelled by the
`notHandledReason` field, `none` meaning the decode fails. -/
structure Pkg where
  correlation : Nat
  cmd : Cmd
  text : String
  notHandledReason : Option NotHandledReason
deriving DecidableEq, Repr

/-- Modelled from the spec: the per-request metadata record of
`internal/operations.rs` — the command that was sent, a unique request id
assigned at creation, and the owning connection's identity. -/
structure Tracking where
  id : Nat
  cmd : Cmd
  connId : Nat
deriving DecidableEq, Repr

/-- `Tracking::new(cmd, conn_id)`; the freshly drawn `Uuid` is passed
explicitly as `id`. -/
def Tracking.new (cmd : Cmd) (connId : Nat) (id : Nat) : Tracking :=
  ⟨id, cmd, connId⟩

def Tracking.get_id (t : Tracking) : Nat := t.id

@[simp] theorem Tracking.get_id_def (t : Tracking) : t.get_id = t.id := rfl

def Tracking.get_cmd (t : Tracking) : Cmd := t.cmd

/-- The reverse-index association record of `registry.rs`: owning operation
id plus the tracking record. -/
structure Request where
  session : Nat
  tracker : Tracking
deriving DecidableEq, Repr

/-- `Request::new(session, cmd, conn_id)` with the fresh request id passed
explicitly. -/
def Request.new (session : Nat) (cmd : Cmd) (connId : Nat) (id : Nat) : Request :=
  ⟨session, Tracking.new cmd connId id⟩

def Request.get_id (r : Request) : Nat := r.tracker.get_id

/-- Modelled from the spec: the error taxonomy of
`internal/operations.rs::OperationError`, restricted to the variants the
registry produces. -/
inductive OperationError where
  | serverError (msg : Option String)
  | authenticationRequired
  | notImplemented
  | invalidOperation (msg : String)
  | aborted
deriving DecidableEq, Repr

/-- Modelled from the spec: the connection collaborator — a stable identity;
its `enqueue_all` is recorded as an `Event`. -/
structure Connection where
  id : Nat
deriving DecidableEq, Repr

/-- Observable calls the registry makes on its collaborators. -/
inductive Event where
  | failed (opId : Nat) (err : OperationError)
  | enqueued (pkgs : List Pkg)
  | sendInvoked (opId : Nat)
  | receiveInvoked (opId : Nat) (pkg : Pkg)
  | retryInvoked (opId : Nat) (reqId : Nat)
  | checkInvoked (opId : Nat)
deriving DecidableEq, Repr

/-! ### Association lists: the model of `HashMap` -/

def alookup {α : Type} : List (Nat × α) → Nat → Option α
  | [], _ => none
  | (k, v) :: t, x => if k = x then some v else alookup t x

/-- `HashMap::insert`: replace the entry if the key is present, otherwise
add it. -/
def ainsert {α : Type} : List (Nat × α) → Nat → α → List (Nat × α)
  | [], k, v => [(k, v)]
  | (k', w) :: t, k, v => if k' = k then (k, v) :: t else (k', w) :: ainsert t k v

/-- `HashMap::remove` (the value, when needed, is read with `alookup`
first). -/
def aremove {α : Type} : List (Nat × α) → Nat → List (Nat × α)
  | [], _ => []
  | (k', w) :: t, k => if k' = k then aremove t k else (k', w) :: aremove t k

def keys {α : Type} (l : List (Nat × α)) : List Nat := l.map Prod.fst

@[simp] theorem alookup_nil {α : Type} (x : Nat) : alookup ([] : List (Nat × α)) x = none := rfl

@[simp] theorem keys_nil {α : Type} : keys ([] : List (Nat × α)) = [] := rfl

@[simp] theorem keys_cons {α : Type} (k : Nat) (v : α) (t : List (Nat × α)) :
    keys ((k, v) :: t) = k :: keys t := rfl

@[simp] theorem keys_append {α : Type} (l₁ l₂ : List (Nat × α)) :
    keys (l₁ ++ l₂) = keys l₁ ++ keys l₂ := by simp [keys]

theorem alookup_ainsert {α : Type} (l : List (Nat × α)) (k : Nat) (v : α) (x : Nat) :
    alookup (ainsert l k v) x = if x = k then some v else alookup l x := by
  induction l with
  | nil =>
    simp only [ainsert, alookup]
    by_cases h : x = k
    · simp [h]
    · have h' : ¬ k = x := fun hh => h hh.symm
      simp [h, h']
  | cons p t ih =>
    obtain ⟨k', w⟩ := p
    by_cases hk : k' = k
    · subst hk
      by_cases hx : x = k'
      · simp [ainsert, alookup, hx]
      · have hx' : ¬ k' = x := fun hh => hx hh.symm
        simp [ainsert, alookup, hx, hx']
    · by_cases hx : k' = x
      · have hxk : ¬ x = k := fun h => hk (hx.trans h)
        simp [ainsert, alookup, hk, hx, hxk]
      · simp [ainsert, alookup, hk, hx, ih]

theorem alookup_aremove {α : Type} (l : List (Nat × α)) (k : Nat) (x : Nat) :
    alookup (aremove l k) x = if x = k then none else alookup l x := by
  induction l with
  | nil => simp [aremove]
  | cons p t ih =>
    obtain ⟨k', w⟩ := p
    by_cases hk : k' = k
    · subst hk
      by_cases hx : x = k'
      · rw [hx] at ih ⊢
        simp [aremove, alookup, ih]
      · have hx' : ¬ k' = x := fun hh => hx hh.symm
        simp [aremove, alookup, hx, hx', ih]
    · by_cases hx : k' = x
      · have hxk : ¬ x = k := fun h => hk (hx.trans h)
        simp [aremove, alookup, hk, hx, hxk]
      · simp [aremove, alookup, hk, hx, ih]

theorem mem_keys {α : Type} (l : List (Nat × α)) (x : Nat) :
    x ∈ keys l ↔ ∃ v, (x, v) ∈ l := by
  simp only [keys, List.mem_map]
  constructor
  · rintro ⟨⟨k, v⟩, hm, rfl⟩
    exact ⟨v, hm⟩
  · rintro ⟨v, hm⟩
    exact ⟨(x, v), hm, rfl⟩

theorem alookup_none_iff {α : Type} (l : List (Nat × α)) (x : Nat) :
    alookup l x = none ↔ x ∉ keys l := by
  induction l with
  | nil => simp
  | cons p t ih =>
    obtain ⟨k, v⟩ := p
    by_cases h : k = x
    · subst h
      simp [alookup]
    · have h' : ¬ x = k := fun hh => h hh.symm
      simp [alookup, h, ih, h']

theorem alookup_isSome_iff {α : Type} (l : List (Nat × α)) (x : Nat) :
    (∃ v, alookup l x = some v) ↔ x ∈ keys l := by
  constructor
  · rintro ⟨v, hv⟩
    by_contra h
    rw [← alookup_none_iff] at h
    simp [hv] at h
  · intro h
    cases hv : alookup l x with
    | none => rw [alookup_none_iff] at hv; exact absurd h hv
    | some v => exact ⟨v, rfl⟩

theorem alookup_mem {α : Type} {l : List (Nat × α)} {x : Nat} {v : α}
    (h : alookup l x = some v) : (x, v) ∈ l := by
  induction l with
  | nil => simp [alookup] at h
  | cons p t ih =>
    obtain ⟨k, w⟩ := p
    by_cases hk : k = x
    · subst hk
      simp [alookup] at h
      simp [h]
    · simp [alookup, hk] at h
      simp [ih h]

theorem mem_keys_of_mem {α : Type} {l : List (Nat × α)} {p : Nat × α}
    (h : p ∈ l) : p.1 ∈ keys l := List.mem_map_of_mem Prod.fst h

theorem mem_alookup {α : Type} {l : List (Nat × α)} {x : Nat} {v : α}
    (hn : (keys l).Nodup) (h : (x, v) ∈ l) : alookup l x = some v := by
  induction l with
  | nil => simp at h
  | cons p t ih =>
    obtain ⟨k, w⟩ := p
    rw [keys_cons, List.nodup_cons] at hn
    rcases List.mem_cons.mp h with h | h
    · cases h
      simp [alookup]
    · have hkx : k ≠ x := by
        intro hk
        subst hk
        exact hn.1 (mem_keys_of_mem h)
      simp [alookup, hkx, ih hn.2 h]

theorem keys_ainsert_mem {α : Type} (l : List (Nat × α)) (k : Nat) (v : α) (x : Nat) :
    x ∈ keys (ainsert l k v) ↔ x ∈ keys l ∨ x = k := by
  rw [← alookup_isSome_iff, ← alookup_isSome_iff, alookup_ainsert]
  by_cases h : x = k <;> simp [h]

theorem keys_aremove_mem {α : Type} (l : List (Nat × α)) (k : Nat) (x : Nat) :
    x ∈ keys (aremove l k) ↔ x ∈ keys l ∧ x ≠ k := by
  rw [← alookup_isSome_iff, ← alookup_isSome_iff, alookup_aremove]
  by_cases h : x = k <;> simp [h]

theorem nodup_keys_ainsert {α : Type} (l : List (Nat × α)) (k : Nat) (v : α)
    (h : (keys l).Nodup) : (keys (ainsert l k v)).Nodup := by
  induction l with
  | nil => simp [ainsert]
  | cons p t ih =>
    obtain ⟨k', w⟩ := p
    rw [keys_cons, List.nodup_cons] at h
    by_cases hk : k' = k
    · subst hk
      rw [show ainsert ((k', w) :: t) k' v = (k', v) :: t from by simp [ainsert]]
      rw [keys_cons, List.nodup_cons]
      exact h
    · rw [show ainsert ((k', w) :: t) k v = (k', w) :: ainsert t k v from by simp [ainsert, hk]]
      rw [keys_cons, List.nodup_cons]
      refine ⟨?_, ih h.2⟩
      intro hmem
      rcases (keys_ainsert_mem t k v k').mp hmem with hmem | hmem
      · exact h.1 hmem
      · exact hk hmem

theorem nodup_keys_aremove {α : Type} (l : List (Nat × α)) (k : Nat)
    (h : (keys l).Nodup) : (keys (aremove l k)).Nodup := by
  induction l with
  | nil => simp [aremove]
  | cons p t ih =>
    obtain ⟨k', w⟩ := p
    rw [keys_cons, List.nodup_cons] at h
    by_cases hk : k' = k
    · subst hk
      rw [show aremove ((k', w) :: t) k' = aremove t k' from by simp [aremove]]
      exact ih h.2
    · rw [show aremove ((k', w) :: t) k = (k', w) :: aremove t k from by simp [aremove, hk]]
      rw [keys_cons, List.nodup_cons]
      refine ⟨?_, ih h.2⟩
      intro hmem
      exact h.1 ((keys_aremove_mem t k k').mp hmem).1

theorem ainsert_of_not_mem {α : Type} {l : List (Nat × α)} {k : Nat} (v : α)
    (h : k ∉ keys l) : ainsert l k v = l ++ [(k, v)] := by
  induction l with
  | nil => simp [ainsert]
  | cons p t ih =>
    obtain ⟨k', w⟩ := p
    rw [keys_cons, List.mem_cons] at h
    push_neg at h
    have h' : ¬ k' = k := fun hh => h.1 hh.symm
    simp [ainsert, h', ih h.2]

theorem aremove_of_not_mem {α : Type} {l : List (Nat × α)} {k : Nat}
    (h : k ∉ keys l) : aremove l k = l := by
  induction l with
  | nil => simp [aremove]
  | cons p t ih =>
    obtain ⟨k', w⟩ := p
    rw [keys_cons, List.mem_cons] at h
    push_neg at h
    have h' : ¬ k' = k := fun hh => h.1 hh.symm
    simp [aremove, h', ih h.2]

/-! ### The session view (`SessionImpl`)

A `SessionImpl` in the source borrows the shared reverse index (`assocs`),
the operation's running-list (`runnings`) and the connection; the session's
operation id and the connection id are passed to each embedded function
explicitly.  `fresh` is the Uuid supply. -/

structure SessCtx where
  assocs : List (Nat × Request)
  runnings : List Nat
  fresh : Nat
deriving DecidableEq, Repr

namespace SessionImpl

/-- `SessionImpl::new_request`: create a `Request` with a fresh id, insert
it into the reverse index, push the id onto the running-list, return the
id. -/
def new_request (sid connId : Nat) (cmd : Cmd) (c : SessCtx) : Nat × SessCtx :=
  let id := c.fresh
  let req := Request.new sid cmd connId id
  (id, ⟨ainsert c.assocs id req, c.runnings ++ [id], c.fresh + 1⟩)

/-- Result of `SessionImpl::pop`.  `panicked` models the `unwrap` on
`position` firing: the id was present in the shared reverse index but not
in this session's running-list. -/
inductive PopResult where
  | ok (t : Tracking)
  | notFound
  | panicked
deriving DecidableEq, Repr

/-- `SessionImpl::pop`: remove the id from the shared reverse index; on a
hit, locate the id in the running-list (`position(..).unwrap()` — panics if
absent) and remove it there; on a miss return the not-found error.  In the
panic case the state records the reverse index as already mutated, which is
the state the process dies in. -/
def pop (id : Nat) (c : SessCtx) : PopResult × SessCtx :=
  match alookup c.assocs id with
  | some req =>
    if id ∈ c.runnings then
      (PopResult.ok req.tracker,
        ⟨aremove c.assocs id, c.runnings.erase id, c.fresh⟩)
    else
      (PopResult.panicked, ⟨aremove c.assocs id, c.runnings, c.fresh⟩)
  | none => (PopResult.notFound, c)

/-- `SessionImpl::reuse`: push the tracker's id back onto the running-list
and re-insert the association record. -/
def reuse (sid : Nat) (t : Tracking) (c : SessCtx) : SessCtx :=
  ⟨ainsert c.assocs t.get_id ⟨sid, t⟩, c.runnings ++ [t.get_id], c.fresh⟩

/-- `SessionImpl::using`: a read of the mutable handle — `Some` on a hit
anywhere in the shared reverse index, the not-found error otherwise. -/
def usingTracker (id : Nat) (c : SessCtx) : Option Tracking :=
  (alookup c.assocs id).map Request.tracker

/-- The entry update performed through the mutable handle
`SessionImpl::using` returns: overwrite the tracking's command field in
place (the id is assigned at creation and has no mutator, the owning
session id is not reachable through the handle). -/
def usingSetA (id : Nat) (cmd : Cmd) : List (Nat × Request) → List (Nat × Request)
  | [] => []
  | (k, req) :: t =>
    if k = id then
      (k, ⟨req.session, ⟨req.tracker.id, cmd, req.tracker.connId⟩⟩) :: usingSetA id cmd t
    else (k, req) :: usingSetA id cmd t

/-- In-place mutation through the handle `SessionImpl::using` returns,
modelled as overwriting the tracking's command field. -/
def usingSet (id : Nat) (cmd : Cmd) (c : SessCtx) : SessCtx :=
  ⟨usingSetA id cmd c.assocs, c.runnings, c.fresh⟩

/-- `SessionImpl::requests`: the trackers of every record of the shared
reverse index (`self.assocs.values()`). -/
def requests (c : SessCtx) : List Tracking :=
  c.assocs.map (fun p => p.2.tracker)

def connection_id (connId : Nat) : Nat := connId

def has_running_requests (c : SessCtx) : Bool := !c.runnings.isEmpty

end SessionImpl

/-- The free function `terminate`: remove every id of the drained
running-list from the reverse index. -/
def terminate (assocs : List (Nat × Request)) (runnings : List Nat) :
    List (Nat × Request) :=
  runnings.foldl aremove assocs

/-- `SessionImpl::terminate`: drain the running-list and scrub the reverse
index. -/
def SessionImpl.terminateSession (c : SessCtx) : SessCtx :=
  ⟨terminate c.assocs c.runnings, [], c.fresh⟩

theorem alookup_terminate (runnings : List Nat) (assocs : List (Nat × Request)) (x : Nat) :
    alookup (terminate assocs runnings) x =
      if x ∈ runnings then none else alookup assocs x := by
  induction runnings generalizing assocs with
  | nil => simp [terminate]
  | cons id t ih =>
    show alookup (terminate (aremove assocs id) t) x = _
    rw [ih]
    by_cases hx : x ∈ t
    · simp [hx]
    · by_cases hid : x = id
      · simp [hx, hid, alookup_aremove]
      · simp [hx, hid, alookup_aremove]

theorem nodup_keys_terminate (runnings : List Nat) (assocs : List (Nat × Request))
    (h : (keys assocs).Nodup) : (keys (terminate assocs runnings)).Nodup := by
  induction runnings generalizing assocs with
  | nil => exact h
  | cons id t ih => exact ih _ (nodup_keys_aremove _ _ h)

/-! ### Operation callbacks

An operation callback (`send` / `receive` / `retry` / `check_and_retry`
bodies) is modelled as a straight-line program over the `Session`
capability.  `Tracking` values popped by the callback are held in a
`pocket` list — they are owned, moved-out Rust values — and `reuseReq k`
moves the `k`-th pocket entry back through `Session::reuse`.  A `reuseReq`
with an out-of-range index has no Rust counterpart (one cannot reuse a
`Tracking` one does not hold) and is interpreted as a no-op. -/

inductive SOp where
  | newReq (cmd : Cmd)
  | popReq (id : Nat)
  | reuseReq (k : Nat)
  | useSet (id : Nat) (cmd : Cmd)
  | terminateReq
deriving DecidableEq, Repr

/-- One callback step.  `none` models a Rust panic (the `unwrap` inside
`SessionImpl::pop`). -/
def runSOp (sid connId : Nat) (c : SessCtx) (pk : List Tracking) :
    SOp → Option (SessCtx × List Tracking)
  | SOp.newReq cmd => some ((SessionImpl.new_request sid connId cmd c).2, pk)
  | SOp.popReq id =>
    match SessionImpl.pop id c with
    | (SessionImpl.PopResult.ok t, c') => some (c', pk ++ [t])
    | (SessionImpl.PopResult.notFound, c') => some (c', pk)
    | (SessionImpl.PopResult.panicked, _) => none
  | SOp.reuseReq k =>
    if h : k < pk.length then
      some (SessionImpl.reuse sid (pk.get ⟨k, h⟩) c, pk.eraseIdx k)
    else
      some (c, pk)
  | SOp.useSet id cmd => some (SessionImpl.usingSet id cmd c, pk)
  | SOp.terminateReq => some (SessionImpl.terminateSession c, pk)

def runProg (sid connId : Nat) : List SOp → SessCtx → List Tracking →
    Option (SessCtx × List Tracking)
  | [], c, pk => some (c, pk)
  | op :: rest, c, pk =>
    match runSOp sid connId c pk op with
    | some (c', pk') => runProg sid connId rest c' pk'
    | none => none

/-- The "manipulates only request ids it owns" discipline of a callback
step: `pop` and `using` target ids on this session's running-list, `reuse`
moves back a `Tracking` the callback actually holds. -/
def sopOwn (c : SessCtx) (pk : List Tracking) : SOp → Bool
  | SOp.newReq _ => true
  | SOp.popReq id => c.runnings.contains id
  | SOp.reuseReq k => k < pk.length
  | SOp.useSet id _ => c.runnings.contains id
  | SOp.terminateReq => true

def progOwn (sid connId : Nat) : List SOp → SessCtx → List Tracking → Bool
  | [], _, _ => true
  | op :: rest, c, pk =>
    sopOwn c pk op &&
      match runSOp sid connId c pk op with
      | some (c', pk') => progOwn sid connId rest c' pk'
      | none => false

/-- Modelled from the spec: the outcome value an operation callback returns
on success — whether the operation declared itself done, and the outgoing
packages it produced (`produced_pkgs`). -/
structure Outcome where
  done : Bool
  pkgs : List Pkg
deriving DecidableEq, Repr

def Outcome.is_done (o : Outcome) : Bool := o.done

def Outcome.produced_pkgs (o : Outcome) : List Pkg := o.pkgs

/-- A callback body: its session-manipulation steps and its returned
`io::Result<Outcome>` (the error carries the message the registry formats
into `InvalidOperation`). -/
structure Prog where
  ops : List SOp
  result : Except String Outcome

/-- Modelled from the spec: the polymorphic operation contract of
`internal/operations.rs::OperationWrapper` — the registry only calls
`send`, `receive`, `retry`, `check_and_retry` and `failed`; `failed` takes
no session and is recorded as an `Event`. -/
structure OpSpec where
  send : Prog
  receive : Pkg → Prog
  retry : Nat → Prog
  check : Prog

/-- A registered operation: its unique operation id plus its behaviour. -/
structure Op where
  id : Nat
  spec : OpSpec

/-! ### The `Requests` table -/

structure Requests where
  sessions : List (Nat × Op)
  session_request_ids : List (Nat × List Nat)
  assocs : List (Nat × Request)
  fresh : Nat

def Requests.new : Requests := ⟨[], [], [], 0⟩

/-- `Requests::register`: build a fresh running-list, run the operation's
`send` with a session over it; on success enqueue the produced packages and
commit operation + running-list into the active maps; on failure unwind
every request id `send` created (`terminate`) and drop the operation.  The
`Bool` records whether every callback obeyed the owns-only discipline;
`none` models a panic inside the callback. -/
def Requests.register (conn : Connection) (op : Op) (rq : Requests) :
    Option (Requests × List Event × Bool) :=
  match runProg op.id conn.id op.spec.send.ops ⟨rq.assocs, [], rq.fresh⟩ [] with
  | none => none
  | some (c1, _) =>
    match op.spec.send.result with
    | Except.ok outcome =>
      some ({ sessions := ainsert rq.sessions op.id op,
              session_request_ids := ainsert rq.session_request_ids op.id c1.runnings,
              assocs := c1.assocs, fresh := c1.fresh },
            [Event.sendInvoked op.id, Event.enqueued outcome.produced_pkgs],
            progOwn op.id conn.id op.spec.send.ops ⟨rq.assocs, [], rq.fresh⟩ [])
    | Except.error _ =>
      some ({ rq with assocs := terminate c1.assocs c1.runnings, fresh := c1.fresh },
            [Event.sendInvoked op.id],
            progOwn op.id conn.id op.spec.send.ops ⟨rq.assocs, [], rq.fresh⟩ [])

/-- The reply-code dispatch of `Requests::handle_pkg` step 3: given the
session context `c0` (reverse index with the request re-inserted, the
operation's running-list), produce (failed?, new context, events,
owns-discipline flag). -/
def dispatch (conn : Connection) (pkg : Pkg) (sid : Nat) (op : Op) (c0 : SessCtx) :
    Option (Bool × SessCtx × List Event × Bool) :=
  match pkg.cmd with
  | Cmd.badRequest =>
    some (true, c0, [Event.failed sid (OperationError.serverError (some pkg.text))], true)
  | Cmd.notAuthenticated =>
    some (true, c0, [Event.failed sid OperationError.authenticationRequired], true)
  | Cmd.notHandled =>
    match pkg.notHandledReason with
    | none => some (true, c0, [], true)
    | some NotHandledReason.notMaster =>
      some (true, c0, [Event.failed sid OperationError.notImplemented], true)
    | some _ =>
      match runProg sid conn.id (op.spec.retry pkg.correlation).ops c0 [] with
      | none => none
      | some (c1, _) =>
        match (op.spec.retry pkg.correlation).result with
        | Except.ok outcome =>
          some (false, c1,
            Event.retryInvoked sid pkg.correlation ::
              (if outcome.produced_pkgs.isEmpty then []
               else [Event.enqueued outcome.produced_pkgs]),
            progOwn sid conn.id (op.spec.retry pkg.correlation).ops c0 [])
        | Except.error _ =>
          some (true, c1, [Event.retryInvoked sid pkg.correlation],
            progOwn sid conn.id (op.spec.retry pkg.correlation).ops c0 [])
  | Cmd.other _ =>
    match runProg sid conn.id (op.spec.receive pkg).ops c0 [] with
    | none => none
    | some (c1, _) =>
      match (op.spec.receive pkg).result with
      | Except.ok outcome =>
        some (false, c1,
          Event.receiveInvoked sid pkg ::
            (if outcome.produced_pkgs.isEmpty then []
             else [Event.enqueued outcome.produced_pkgs]),
          progOwn sid conn.id (op.spec.receive pkg).ops c0 [])
      | Except.error e =>
        some (true, c1,
          [Event.receiveInvoked sid pkg,
           Event.failed sid (OperationError.invalidOperation ("Exception raised: " ++ e))],
          progOwn sid conn.id (op.spec.receive pkg).ops c0 [])

/-- Steps 4–5 of `handle_pkg`: with the post-dispatch session context `c2`
(the terminated one when the outcome was `Failed`), write the running-list
back, or remove the operation from both active maps when the running-list
is now empty. -/
def handleFinish (rq : Requests) (sid : Nat) (c2 : SessCtx) (evs : List Event)
    (own : Bool) : Requests × List Event × Bool :=
  if c2.runnings.isEmpty then
    ({ sessions := aremove rq.sessions sid,
       session_request_ids := aremove rq.session_request_ids sid,
       assocs := c2.assocs, fresh := c2.fresh }, evs, own)
  else
    ({ rq with
       session_request_ids := ainsert rq.session_request_ids sid c2.runnings,
       assocs := c2.assocs, fresh := c2.fresh }, evs, own)

/-- `Requests::handle_pkg`: look the correlation id up in the reverse index
(unknown → log and ignore); remove and re-insert the record; dispatch by
reply code; on a failed outcome terminate the session; if the running-list
ended up empty remove the operation from the active maps.  `none` models
the `expect` panics ("No session associated to request!", "Unknown
session!") and callback panics. -/
def Requests.handle_pkg (conn : Connection) (pkg : Pkg) (rq : Requests) :
    Option (Requests × List Event × Bool) :=
  match alookup rq.assocs pkg.correlation with
  | none => some (rq, [], true)
  | some req =>
    match alookup rq.session_request_ids req.session with
    | none => none
    | some runnings =>
      match alookup rq.sessions req.session with
      | none => none
      | some op =>
        match dispatch conn pkg req.session op
          ⟨ainsert (aremove rq.assocs pkg.correlation) pkg.correlation req,
            runnings, rq.fresh⟩ with
        | none => none
        | some (failedOut, c1, evs, own) =>
          some (handleFinish rq req.session
            (if failedOut then SessionImpl.terminateSession c1 else c1) evs own)

/-- Accumulator of the periodic sweep: the two tables it mutates while
iterating the (unchanged) sessions map, the events, and the two-phase
deletion list. -/
structure SweepSt where
  sri : List (Nat × List Nat)
  assocs : List (Nat × Request)
  fresh : Nat
  evs : List Event
  dels : List Nat
  own : Bool

/-- One iteration of the sweep of `Requests::check_and_retry` over an entry
of the sessions map. -/
def sweepStep (connId : Nat) (st : SweepSt) (entry : Nat × Op) : Option SweepSt :=
  match alookup st.sri entry.2.id with
  | none => none
  | some runnings =>
    match runProg entry.2.id connId entry.2.spec.check.ops ⟨st.assocs, runnings, st.fresh⟩ [] with
    | none => none
    | some (c1, _) =>
      match entry.2.spec.check.result with
      | Except.ok outcome =>
        if outcome.is_done then
          some ⟨ainsert st.sri entry.2.id [], terminate c1.assocs c1.runnings, c1.fresh,
                st.evs ++ [Event.checkInvoked entry.2.id], st.dels ++ [entry.2.id],
                st.own && progOwn entry.2.id connId entry.2.spec.check.ops
                  ⟨st.assocs, runnings, st.fresh⟩ []⟩
        else
          some ⟨ainsert st.sri entry.2.id c1.runnings, c1.assocs, c1.fresh,
                st.evs ++ (Event.checkInvoked entry.2.id ::
                  (if outcome.produced_pkgs.isEmpty then []
                   else [Event.enqueued outcome.produced_pkgs])),
                st.dels,
                st.own && progOwn entry.2.id connId entry.2.spec.check.ops
                  ⟨st.assocs, runnings, st.fresh⟩ []⟩
      | Except.error e =>
        some ⟨ainsert st.sri entry.2.id [], terminate c1.assocs c1.runnings, c1.fresh,
              st.evs ++ [Event.checkInvoked entry.2.id,
                Event.failed entry.2.id
                  (OperationError.invalidOperation ("Exception raised: " ++ e))],
              st.dels ++ [entry.2.id],
              st.own && progOwn entry.2.id connId entry.2.spec.check.ops
                ⟨st.assocs, runnings, st.fresh⟩ []⟩

def sweepGo (connId : Nat) : List (Nat × Op) → SweepSt → Option SweepSt
  | [], st => some st
  | e :: rest, st =>
    match sweepStep connId st e with
    | some st' => sweepGo connId rest st'
    | none => none

/-- Phase two of the sweep: apply the collected removals to both maps. -/
def removeSessions : List (Nat × Op) → List (Nat × List Nat) → List Nat →
    List (Nat × Op) × List (Nat × List Nat)
  | sessions, sri, [] => (sessions, sri)
  | sessions, sri, sid :: rest => removeSessions (aremove sessions sid) (aremove sri sid) rest

/-- `Requests::check_and_retry`: sweep every active operation with its
`check_and_retry` callback, then apply the scheduled removals. -/
def Requests.check_and_retry (conn : Connection) (rq : Requests) :
    Option (Requests × List Event × Bool) :=
  match sweepGo conn.id rq.sessions ⟨rq.session_request_ids, rq.assocs, rq.fresh, [], [], true⟩ with
  | none => none
  | some st =>
    some (⟨(removeSessions rq.sessions st.sri st.dels).1,
           (removeSessions rq.sessions st.sri st.dels).2, st.assocs, st.fresh⟩,
          st.evs, st.own)

/-- `Requests::abort`: signal `failed(Aborted)` on every active operation;
no bookkeeping is touched. -/
def Requests.abortAll (rq : Requests) : List Event :=
  rq.sessions.map (fun p => Event.failed p.2.id OperationError.aborted)

/-! ### The `Registry` façade -/

structure Registry where
  requests : Requests
  awaiting : List Op

def Registry.new : Registry := ⟨Requests.new, []⟩

/-- `Registry::register`: queue the operation when no connection exists,
delegate to the table otherwise. -/
def Registry.register (op : Op) (conn : Option Connection) (r : Registry) :
    Option (Registry × List Event × Bool) :=
  match conn with
  | none => some ({ r with awaiting := r.awaiting ++ [op] }, [], true)
  | some c =>
    match Requests.register c op r.requests with
    | none => none
    | some (rq', evs, own) => some ({ r with requests := rq' }, evs, own)

def Registry.handle (pkg : Pkg) (conn : Connection) (r : Registry) :
    Option (Registry × List Event × Bool) :=
  match Requests.handle_pkg conn pkg r.requests with
  | none => none
  | some (rq', evs, own) => some ({ r with requests := rq' }, evs, own)

/-- The `while let Some(op) = self.awaiting.pop()` drain: register the
queued operations one by one; the caller passes the awaiting list already
reversed, which is the pop-from-the-end order. -/
def registerAll (conn : Connection) : List Op → Requests →
    Option (Requests × List Event × Bool)
  | [], rq => some (rq, [], true)
  | op :: rest, rq =>
    match Requests.register conn op rq with
    | none => none
    | some (rq1, e1, b1) =>
      match registerAll conn rest rq1 with
      | none => none
      | some (rq2, e2, b2) => some (rq2, e1 ++ e2, b1 && b2)

/-- `Registry::check_and_retry`: run the table sweep, then drain the
awaiting queue (popping from the end) registering each operation against
the connection. -/
def Registry.check_and_retry (conn : Connection) (r : Registry) :
    Option (Registry × List Event × Bool) :=
  match Requests.check_and_retry conn r.requests with
  | none => none
  | some (rq1, e1, b1) =>
    match registerAll conn r.awaiting.reverse rq1 with
    | none => none
    | some (rq2, e2, b2) => some (⟨rq2, []⟩, e1 ++ e2, b1 && b2)

/-- `Registry::abort`: signal `failed(Aborted)` on every active and every
awaiting operation; no map or queue entry is removed. -/
def Registry.abortReg (r : Registry) : Registry × List Event :=
  (r, Requests.abortAll r.requests ++
      r.awaiting.map (fun op => Event.failed op.id OperationError.aborted))

/-! ### Sequences of public calls -/

inductive Call where
  | register (spec : OpSpec) (conn : Option Connection)
  | handle (pkg : Pkg) (conn : Connection)
  | checkRetry (conn : Connection)
  | abortCall

/-- One public call.  On `register` the operation id is drawn from the
fresh-Uuid supply (matching `OperationId` being a freshly generated v4
Uuid). -/
def runCall (c : Call) (r : Registry) : Option (Registry × List Event × Bool) :=
  match c with
  | Call.register spec conn =>
    Registry.register ⟨r.requests.fresh, spec⟩ conn
      { r with requests := { r.requests with fresh := r.requests.fresh + 1 } }
  | Call.handle pkg conn => Registry.handle pkg conn r
  | Call.checkRetry conn => Registry.check_and_retry conn r
  | Call.abortCall => some ((Registry.abortReg r).1, (Registry.abortReg r).2, true)

def runCalls : List Call → Registry → Option (Registry × List Event × Bool)
  | [], r => some (r, [], true)
  | c :: rest, r =>
    match runCall c r with
    | none => none
    | some (r1, e1, b1) =>
      match runCalls rest r1 with
      | none => none
      | some (r2, e2, b2) => some (r2, e1 ++ e2, b1 && b2)

/-! ### Invariants -/

/-- The owning operation id the reverse index records for a request id. -/
def ownerOf (assocs : List (Nat × Request)) (id : Nat) : Option Nat :=
  (alookup assocs id).map Request.session

/-- Whether `id` is on the running-list the `session_request_ids` map holds
for `sid`. -/
def idInRun (sri : List (Nat × List Nat)) (sid id : Nat) : Bool :=
  match alookup sri sid with
  | some l => l.contains id
  | none => false

/-- The bookkeeping invariant of the `Requests` table.  Every component is
a bounded (hence decidable) statement over the three maps. -/
structure Inv (rq : Requests) : Prop where
  nodupA : (keys rq.assocs).Nodup
  nodupS : (keys rq.sessions).Nodup
  nodupR : (keys rq.session_request_ids).Nodup
  sToR : ∀ sid ∈ keys rq.sessions, sid ∈ keys rq.session_request_ids
  rToS : ∀ sid ∈ keys rq.session_request_ids, sid ∈ keys rq.sessions
  listNodup : ∀ p ∈ rq.session_request_ids, List.Nodup (Prod.snd p)
  memTo : ∀ p ∈ rq.session_request_ids, ∀ id ∈ Prod.snd p, ownerOf rq.assocs id = some p.1
  memFrom : ∀ p ∈ rq.assocs, idInRun rq.session_request_ids (Prod.snd p).session p.1 = true
  trackId : ∀ p ∈ rq.assocs, (Prod.snd p).tracker.id = p.1
  sessId : ∀ p ∈ rq.sessions, (Prod.snd p).id = p.1
  freshA : ∀ p ∈ rq.assocs, p.1 < rq.fresh
  freshRun : ∀ p ∈ rq.session_request_ids, ∀ id ∈ Prod.snd p, id < rq.fresh
  freshR : ∀ sid ∈ keys rq.session_request_ids, sid < rq.fresh

/-- The registry-level invariant: the table invariant plus freshness and
uniqueness of the queued operations' ids. -/
structure RInv (r : Registry) : Prop where
  inv : Inv r.requests
  awaitFresh : ∀ op ∈ r.awaiting, op.id < r.requests.fresh
  awaitNodup : (r.awaiting.map Op.id).Nodup
  awaitDisj : ∀ op ∈ r.awaiting, op.id ∉ keys r.requests.session_request_ids

/-- The session-local invariant threaded through a callback run: the
running-list mirrors exactly the records this operation owns, ids are
globally fresh-bounded, and the pocket holds trackers that are currently in
neither structure. -/
structure CInv (sid : Nat) (c : SessCtx) (pk : List Tracking) : Prop where
  nodupA : (keys c.assocs).Nodup
  nodupR : c.runnings.Nodup
  iffOwn : ∀ id, id ∈ c.runnings ↔ ∃ req, alookup c.assocs id = some req ∧ req.session = sid
  freshA : ∀ p ∈ c.assocs, p.1 < c.fresh
  freshR : ∀ id ∈ c.runnings, id < c.fresh
  pkFresh : ∀ t ∈ pk, t.id < c.fresh
  pkNotIn : ∀ t ∈ pk, alookup c.assocs t.id = none
  pkNodup : (pk.map Tracking.id).Nodup
  trackId : ∀ p ∈ c.assocs, (Prod.snd p).tracker.id = p.1

/-! ### Helper lemmas for the invariant proofs -/

theorem mem_of_mem_aremove {α : Type} {l : List (Nat × α)} {k : Nat} {p : Nat × α}
    (h : p ∈ aremove l k) : p ∈ l := by
  induction l with
  | nil => simp [aremove] at h
  | cons q t ih =>
    obtain ⟨k', w⟩ := q
    by_cases hk : k' = k
    · subst hk
      simp [aremove] at h
      exact List.mem_cons_of_mem _ (ih h)
    · simp [aremove, hk] at h
      rcases h with h | h
      · simp [h]
      · exact List.mem_cons_of_mem _ (ih h)

theorem mem_of_mem_terminate {ids : List Nat} :
    ∀ {a : List (Nat × Request)} {p : Nat × Request}, p ∈ terminate a ids → p ∈ a := by
  induction ids with
  | nil => intro a p h; exact h
  | cons id t ih =>
    intro a p h
    exact mem_of_mem_aremove (ih h)

theorem map_eraseIdx_comm {α β : Type} (f : α → β) :
    ∀ (l : List α) (k : Nat), (l.eraseIdx k).map f = (l.map f).eraseIdx k
  | [], _ => rfl
  | _ :: _, 0 => rfl
  | a :: t, k + 1 => by
    show f a :: (t.eraseIdx k).map f = (f a :: t.map f).eraseIdx (k + 1)
    simp [List.eraseIdx, map_eraseIdx_comm f t k]

theorem mem_eraseIdx_ne {l : List Nat} {k : Nat} (h : k < l.length)
    (hn : l.Nodup) : ∀ x ∈ l.eraseIdx k, x ≠ l.get ⟨k, h⟩ := by
  intro x hx he
  rw [List.mem_eraseIdx_iff_getElem] at hx
  obtain ⟨i, hi, hik, hix⟩ := hx
  have : l[i] = l[k] := by
    rw [hix]
    exact he
  exact hik ((hn.getElem_inj_iff).mp this)

theorem alookup_usingSetA (id : Nat) (cmd : Cmd) (l : List (Nat × Request)) (x : Nat) :
    alookup (SessionImpl.usingSetA id cmd l) x =
      if x = id then
        (alookup l id).map
          (fun req => ⟨req.session, ⟨req.tracker.id, cmd, req.tracker.connId⟩⟩)
      else alookup l x := by
  induction l with
  | nil => by_cases h : x = id <;> simp [SessionImpl.usingSetA, h]
  | cons p t ih =>
    obtain ⟨k, req⟩ := p
    by_cases hk : k = id
    · subst hk
      by_cases hx : x = k
      · subst hx
        simp [SessionImpl.usingSetA, alookup]
      · have hx' : ¬ k = x := fun hh => hx hh.symm
        simp [SessionImpl.usingSetA, alookup, hx, hx', ih]
    · by_cases hx : x = k
      · subst hx
        have hk' : ¬ x = id := hk
        simp [SessionImpl.usingSetA, alookup, hk, hk']
      · have hk' : ¬ k = x := fun hh => hx hh.symm
        by_cases hxid : x = id
        · subst hxid
          simp [SessionImpl.usingSetA, alookup, hk, hk', ih]
        · simp [SessionImpl.usingSetA, alookup, hk, hk', hxid, ih]

theorem mem_usingSetA {id : Nat} {cmd : Cmd} {l : List (Nat × Request)} {p : Nat × Request}
    (h : p ∈ SessionImpl.usingSetA id cmd l) :
    ∃ q ∈ l, p.1 = q.1 ∧ (p.2 : Request).session = (q.2 : Request).session ∧
      (p.2 : Request).tracker.id = (q.2 : Request).tracker.id := by
  induction l with
  | nil => simp [SessionImpl.usingSetA] at h
  | cons q t ih =>
    obtain ⟨k, req⟩ := q
    by_cases hk : k = id
    · rw [show SessionImpl.usingSetA id cmd ((k, req) :: t) =
        (k, ⟨req.session, ⟨req.tracker.id, cmd, req.tracker.connId⟩⟩) ::
          SessionImpl.usingSetA id cmd t from by simp [SessionImpl.usingSetA, hk]] at h
      rcases List.mem_cons.mp h with h | h
      · subst h
        exact ⟨(k, req), List.mem_cons_self _ _, rfl, rfl, rfl⟩
      · obtain ⟨q, hq, h1, h2, h3⟩ := ih h
        exact ⟨q, List.mem_cons_of_mem _ hq, h1, h2, h3⟩
    · rw [show SessionImpl.usingSetA id cmd ((k, req) :: t) =
        (k, req) :: SessionImpl.usingSetA id cmd t from by simp [SessionImpl.usingSetA, hk]] at h
      rcases List.mem_cons.mp h with h | h
      · subst h
        exact ⟨(k, req), List.mem_cons_self _ _, rfl, rfl, rfl⟩
      · obtain ⟨q, hq, h1, h2, h3⟩ := ih h
        exact ⟨q, List.mem_cons_of_mem _ hq, h1, h2, h3⟩

/-- Records owned by other operations are untouched. -/
def Foreign (sid : Nat) (a a' : List (Nat × Request)) : Prop :=
  ∀ x req, req.session ≠ sid → (alookup a' x = some req ↔ alookup a x = some req)

theorem Foreign.rfl {sid : Nat} {a : List (Nat × Request)} : Foreign sid a a :=
  fun _ _ _ => Iff.rfl

theorem Foreign.trans {sid : Nat} {a b c : List (Nat × Request)}
    (h1 : Foreign sid a b) (h2 : Foreign sid b c) : Foreign sid a c :=
  fun x req hne => (h2 x req hne).trans (h1 x req hne)

theorem CInv.fresh_not_key {sid : Nat} {c : SessCtx} {pk : List Tracking}
    (hI : CInv sid c pk) : c.fresh ∉ keys c.assocs := by
  intro hmem
  obtain ⟨v, hv⟩ := (mem_keys _ _).mp hmem
  exact Nat.lt_irrefl _ (hI.freshA (c.fresh, v) hv)

theorem CInv.fresh_not_run {sid : Nat} {c : SessCtx} {pk : List Tracking}
    (hI : CInv sid c pk) : c.fresh ∉ c.runnings :=
  fun hmem => Nat.lt_irrefl _ (hI.freshR c.fresh hmem)

/-- `new_request` preserves the session-local invariant; foreign records
are untouched. -/
theorem cinv_newReq {sid connId : Nat} {c : SessCtx} {pk : List Tracking} (cmd : Cmd)
    (hI : CInv sid c pk) :
    CInv sid (SessionImpl.new_request sid connId cmd c).2 pk ∧
      c.fresh ≤ (SessionImpl.new_request sid connId cmd c).2.fresh ∧
      Foreign sid c.assocs (SessionImpl.new_request sid connId cmd c).2.assocs := by
  have hnk : c.fresh ∉ keys c.assocs := hI.fresh_not_key
  have hnr : c.fresh ∉ c.runnings := hI.fresh_not_run
  have hnone : alookup c.assocs c.fresh = none := (alookup_none_iff _ _).mpr hnk
  have hins : ainsert c.assocs c.fresh (Request.new sid cmd connId c.fresh) =
      c.assocs ++ [(c.fresh, Request.new sid cmd connId c.fresh)] :=
    ainsert_of_not_mem _ hnk
  refine ⟨⟨?_, ?_, ?_, ?_, ?_, ?_, ?_, ?_, ?_⟩, ?_, ?_⟩
  · exact nodup_keys_ainsert _ _ _ hI.nodupA
  · show (c.runnings ++ [c.fresh]).Nodup
    rw [List.nodup_append]
    exact ⟨hI.nodupR, List.nodup_singleton _, by simpa using hnr⟩
  · intro id
    show id ∈ c.runnings ++ [c.fresh] ↔ _
    show _ ↔ ∃ req, alookup (ainsert c.assocs c.fresh (Request.new sid cmd connId c.fresh)) id
      = some req ∧ req.session = sid
    rw [List.mem_append, List.mem_singleton]
    by_cases hid : id = c.fresh
    · subst hid
      simp only [alookup_ainsert, if_pos rfl]
      constructor
      · intro _
        exact ⟨_, rfl, rfl⟩
      · intro _
        exact Or.inr trivial
    · simp only [alookup_ainsert, if_neg hid, hid, or_false]
      exact hI.iffOwn id
  · intro p hp
    show p.1 < c.fresh + 1
    have hp' : p ∈ ainsert c.assocs c.fresh (Request.new sid cmd connId c.fresh) := hp
    rw [hins] at hp'
    rcases List.mem_append.mp hp' with hp | hp
    · exact Nat.lt_succ_of_lt (hI.freshA p hp)
    · rcases List.mem_singleton.mp hp with rfl
      exact Nat.lt_succ_self _
  · intro id hid
    show id < c.fresh + 1
    rcases List.mem_append.mp hid with hid | hid
    · exact Nat.lt_succ_of_lt (hI.freshR id hid)
    · rcases List.mem_singleton.mp hid with rfl
      exact Nat.lt_succ_self _
  · intro t ht
    exact Nat.lt_succ_of_lt (hI.pkFresh t ht)
  · intro t ht
    show alookup (ainsert _ _ _) t.id = none
    rw [alookup_ainsert, if_neg (fun hh => Nat.lt_irrefl _ (hh ▸ hI.pkFresh t ht))]
    exact hI.pkNotIn t ht
  · exact hI.pkNodup
  · intro p hp
    have hp' : p ∈ ainsert c.assocs c.fresh (Request.new sid cmd connId c.fresh) := hp
    rw [hins] at hp'
    rcases List.mem_append.mp hp' with hp | hp
    · exact hI.trackId p hp
    · rcases List.mem_singleton.mp hp with rfl
      rfl
  · exact Nat.le_succ _
  · intro x req hne
    show alookup (ainsert _ _ _) x = some req ↔ _
    rw [alookup_ainsert]
    by_cases hx : x = c.fresh
    · subst hx
      rw [if_pos rfl, hnone]
      constructor
      · intro h
        cases h
        exact absurd rfl hne
      · intro h
        cases h
    · rw [if_neg hx]

/-- `pop` of an id on the session's own running-list succeeds and preserves
the session-local invariant; the popped tracker joins the pocket. -/
theorem cinv_popReq {sid : Nat} {c : SessCtx} {pk : List Tracking} {id : Nat}
    (hI : CInv sid c pk) (hmem : id ∈ c.runnings) :
    ∃ req, alookup c.assocs id = some req ∧ req.session = sid ∧
      SessionImpl.pop id c =
        (SessionImpl.PopResult.ok req.tracker,
          ⟨aremove c.assocs id, c.runnings.erase id, c.fresh⟩) ∧
      CInv sid ⟨aremove c.assocs id, c.runnings.erase id, c.fresh⟩ (pk ++ [req.tracker]) ∧
      Foreign sid c.assocs (aremove c.assocs id) := by
  obtain ⟨req, hreq, hsess⟩ := (hI.iffOwn id).mp hmem
  have htrack : req.tracker.id = id := hI.trackId (id, req) (alookup_mem hreq)
  refine ⟨req, hreq, hsess, ?_, ⟨?_, ?_, ?_, ?_, ?_, ?_, ?_, ?_, ?_⟩, ?_⟩
  · show SessionImpl.pop id c = _
    simp [SessionImpl.pop, hreq, hmem]
  · exact nodup_keys_aremove _ _ hI.nodupA
  · exact hI.nodupR.erase id
  · intro x
    show x ∈ c.runnings.erase id ↔
      ∃ r, alookup (aremove c.assocs id) x = some r ∧ r.session = sid
    rw [hI.nodupR.mem_erase_iff, alookup_aremove]
    by_cases hx : x = id
    · subst hx
      simp only [if_pos rfl]
      constructor
      · rintro ⟨hne, _⟩
        exact absurd rfl hne
      · rintro ⟨r, hr, _⟩
        cases hr
    · rw [if_neg hx]
      constructor
      · rintro ⟨_, hx2⟩
        exact (hI.iffOwn x).mp hx2
      · intro h
        exact ⟨hx, (hI.iffOwn x).mpr h⟩
  · intro p hp
    exact hI.freshA p (mem_of_mem_aremove hp)
  · intro x hx
    exact hI.freshR x (List.mem_of_mem_erase hx)
  · intro t ht
    rcases List.mem_append.mp ht with ht | ht
    · exact hI.pkFresh t ht
    · rcases List.mem_singleton.mp ht with rfl
      rw [htrack]
      exact hI.freshR id hmem
  · intro t ht
    show alookup (aremove c.assocs id) t.id = none
    rw [alookup_aremove]
    rcases List.mem_append.mp ht with ht | ht
    · by_cases hx : t.id = id
      · rw [if_pos hx]
      · rw [if_neg hx]
        exact hI.pkNotIn t ht
    · rcases List.mem_singleton.mp ht with rfl
      rw [if_pos htrack]
  · show ((pk ++ [req.tracker]).map Tracking.id).Nodup
    rw [List.map_append]
    rw [List.nodup_append]
    refine ⟨hI.pkNodup, List.nodup_singleton _, ?_⟩
    intro x hx hx2
    rcases List.mem_map.mp hx with ⟨t, ht, rfl⟩
    have htid : t.id = id := by simpa [htrack] using hx2
    have h2 := hI.pkNotIn t ht
    rw [htid, hreq] at h2
    cases h2
  · intro p hp
    exact hI.trackId p (mem_of_mem_aremove hp)
  · intro x r hne
    rw [alookup_aremove]
    by_cases hx : x = id
    · subst hx
      rw [if_pos rfl, hreq]
      constructor
      · intro h
        cases h
      · intro h
        cases h
        exact absurd hsess hne
    · rw [if_neg hx]

theorem keys_usingSetA (id : Nat) (cmd : Cmd) (l : List (Nat × Request)) :
    keys (SessionImpl.usingSetA id cmd l) = keys l := by
  induction l with
  | nil => rfl
  | cons p t ih =>
    obtain ⟨k, req⟩ := p
    by_cases hk : k = id <;> simp [SessionImpl.usingSetA, hk, ih]

/-- `reuse` of a pocket tracker preserves the session-local invariant. -/
theorem cinv_reuseReq {sid : Nat} {c : SessCtx} {pk : List Tracking} {k : Nat}
    (hI : CInv sid c pk) (hk : k < pk.length) :
    CInv sid (SessionImpl.reuse sid (pk.get ⟨k, hk⟩) c) (pk.eraseIdx k) ∧
      Foreign sid c.assocs (SessionImpl.reuse sid (pk.get ⟨k, hk⟩) c).assocs := by
  set t := pk.get ⟨k, hk⟩ with ht_def
  have ht : t ∈ pk := pk.get_mem k hk
  have htid_none : alookup c.assocs t.id = none := hI.pkNotIn t ht
  have htid_nkey : t.id ∉ keys c.assocs := (alookup_none_iff _ _).mp htid_none
  have htns : t.id ∉ c.runnings := by
    intro hmem
    obtain ⟨r, hr, _⟩ := (hI.iffOwn t.id).mp hmem
    rw [htid_none] at hr
    cases hr
  have hins : ainsert c.assocs t.get_id (⟨sid, t⟩ : Request) =
      c.assocs ++ [(t.id, ⟨sid, t⟩)] := ainsert_of_not_mem _ htid_nkey
  have herase_ne : ∀ t' ∈ pk.eraseIdx k, t'.id ≠ t.id := by
    intro t' ht' heq
    have hmemid : t'.id ∈ (pk.map Tracking.id).eraseIdx k := by
      rw [← map_eraseIdx_comm]
      exact List.mem_map_of_mem Tracking.id ht'
    have hlen : k < (pk.map Tracking.id).length := by
      rw [List.length_map]
      exact hk
    have hget : (pk.map Tracking.id).get ⟨k, hlen⟩ = t.id := by
      rw [List.get_eq_getElem, List.getElem_map]
      rfl
    exact mem_eraseIdx_ne hlen hI.pkNodup t'.id hmemid (by rw [hget, heq])
  refine ⟨⟨?_, ?_, ?_, ?_, ?_, ?_, ?_, ?_, ?_⟩, ?_⟩
  · exact nodup_keys_ainsert _ _ _ hI.nodupA
  · show (c.runnings ++ [t.get_id]).Nodup
    rw [List.nodup_append]
    exact ⟨hI.nodupR, List.nodup_singleton _, by simpa using htns⟩
  · intro x
    show x ∈ c.runnings ++ [t.get_id] ↔
      ∃ r, alookup (ainsert c.assocs t.get_id ⟨sid, t⟩) x = some r ∧ r.session = sid
    rw [List.mem_append, List.mem_singleton, alookup_ainsert]
    simp only [Tracking.get_id_def]
    by_cases hx : x = t.id
    · subst hx
      simp only [if_pos rfl]
      constructor
      · intro _
        exact ⟨_, rfl, rfl⟩
      · intro _
        exact Or.inr trivial
    · rw [if_neg hx]
      simp only [hx, or_false]
      exact hI.iffOwn x
  · intro p hp
    have hp' : p ∈ ainsert c.assocs t.get_id (⟨sid, t⟩ : Request) := hp
    rw [hins] at hp'
    rcases List.mem_append.mp hp' with hp2 | hp2
    · exact hI.freshA p hp2
    · rcases List.mem_singleton.mp hp2 with rfl
      exact hI.pkFresh t ht
  · intro x hx
    rcases List.mem_append.mp hx with hx | hx
    · exact hI.freshR x hx
    · rcases List.mem_singleton.mp hx with rfl
      exact hI.pkFresh t ht
  · intro t' ht'
    exact hI.pkFresh t' (List.mem_of_mem_eraseIdx ht')
  · intro t' ht'
    show alookup (ainsert c.assocs t.get_id ⟨sid, t⟩) t'.id = none
    rw [alookup_ainsert]
    simp only [Tracking.get_id_def]
    rw [if_neg (herase_ne t' ht')]
    exact hI.pkNotIn t' (List.mem_of_mem_eraseIdx ht')
  · show ((pk.eraseIdx k).map Tracking.id).Nodup
    rw [map_eraseIdx_comm]
    exact hI.pkNodup.eraseIdx k
  · intro p hp
    have hp' : p ∈ ainsert c.assocs t.get_id (⟨sid, t⟩ : Request) := hp
    rw [hins] at hp'
    rcases List.mem_append.mp hp' with hp2 | hp2
    · exact hI.trackId p hp2
    · rcases List.mem_singleton.mp hp2 with rfl
      rfl
  · intro x r hne
    show alookup (ainsert c.assocs t.get_id ⟨sid, t⟩) x = some r ↔ _
    rw [alookup_ainsert]
    simp only [Tracking.get_id_def]
    by_cases hx : x = t.id
    · subst hx
      rw [if_pos rfl, htid_none]
      constructor
      · intro h
        cases h
        exact absurd rfl hne
      · intro h
        cases h
    · rw [if_neg hx]

/-- Mutation through `using` of an id on the session's own running-list
preserves the session-local invariant. -/
theorem cinv_useSet {sid : Nat} {c : SessCtx} {pk : List Tracking} {id : Nat} (cmd : Cmd)
    (hI : CInv sid c pk) (hmem : id ∈ c.runnings) :
    CInv sid (SessionImpl.usingSet id cmd c) pk ∧
      Foreign sid c.assocs (SessionImpl.usingSet id cmd c).assocs := by
  obtain ⟨req, hreq, hsess⟩ := (hI.iffOwn id).mp hmem
  have hassocs : (SessionImpl.usingSet id cmd c).assocs =
      SessionImpl.usingSetA id cmd c.assocs := rfl
  refine ⟨⟨?_, ?_, ?_, ?_, ?_, ?_, ?_, ?_, ?_⟩, ?_⟩
  · show (keys (SessionImpl.usingSetA id cmd c.assocs)).Nodup
    rw [keys_usingSetA]
    exact hI.nodupA
  · exact hI.nodupR
  · intro x
    show x ∈ c.runnings ↔
      ∃ r, alookup (SessionImpl.usingSet id cmd c).assocs x = some r ∧ r.session = sid
    rw [hassocs, alookup_usingSetA]
    by_cases hx : x = id
    · subst hx
      rw [if_pos rfl, hreq]
      constructor
      · intro _
        exact ⟨_, rfl, hsess⟩
      · intro _
        exact hmem
    · rw [if_neg hx]
      exact hI.iffOwn x
  · intro p hp
    obtain ⟨q, hq, h1, _, _⟩ := mem_usingSetA hp
    rw [h1]
    exact hI.freshA q hq
  · exact hI.freshR
  · exact hI.pkFresh
  · intro t ht
    have htne : t.id ≠ id := by
      intro heq
      have h2 := hI.pkNotIn t ht
      rw [heq, hreq] at h2
      cases h2
    show alookup (SessionImpl.usingSetA id cmd c.assocs) t.id = none
    rw [alookup_usingSetA, if_neg htne]
    exact hI.pkNotIn t ht
  · exact hI.pkNodup
  · intro p hp
    obtain ⟨q, hq, h1, _, h3⟩ := mem_usingSetA hp
    rw [h1, h3]
    exact hI.trackId q hq
  · intro x r hne
    rw [hassocs, alookup_usingSetA]
    by_cases hx : x = id
    · subst hx
      rw [if_pos rfl, hreq]
      constructor
      · intro h
        simp only [Option.map_some'] at h
        cases h
        exact absurd hsess hne
      · intro h
        cases h
        exact absurd hsess hne
    · rw [if_neg hx]

/-- `Session::terminate` preserves the session-local invariant: it removes
exactly this operation's records. -/
theorem cinv_terminate {sid : Nat} {c : SessCtx} {pk : List Tracking}
    (hI : CInv sid c pk) :
    CInv sid (SessionImpl.terminateSession c) pk ∧
      Foreign sid c.assocs (SessionImpl.terminateSession c).assocs := by
  have hassocs : (SessionImpl.terminateSession c).assocs =
      terminate c.assocs c.runnings := rfl
  refine ⟨⟨?_, ?_, ?_, ?_, ?_, ?_, ?_, ?_, ?_⟩, ?_⟩
  · show (keys (terminate c.assocs c.runnings)).Nodup
    exact nodup_keys_terminate _ _ hI.nodupA
  · exact List.nodup_nil
  · intro x
    show x ∈ ([] : List Nat) ↔
      ∃ r, alookup (terminate c.assocs c.runnings) x = some r ∧ r.session = sid
    rw [alookup_terminate]
    constructor
    · intro h
      cases h
    · rintro ⟨r, hr, hrs⟩
      by_cases hx : x ∈ c.runnings
      · rw [if_pos hx] at hr
        cases hr
      · rw [if_neg hx] at hr
        exact absurd ((hI.iffOwn x).mpr ⟨r, hr, hrs⟩) hx
  · intro p hp
    exact hI.freshA p (mem_of_mem_terminate hp)
  · intro x hx
    cases hx
  · exact hI.pkFresh
  · intro t ht
    show alookup (terminate c.assocs c.runnings) t.id = none
    rw [alookup_terminate]
    by_cases hx : t.id ∈ c.runnings
    · rw [if_pos hx]
    · rw [if_neg hx]
      exact hI.pkNotIn t ht
  · exact hI.pkNodup
  · intro p hp
    exact hI.trackId p (mem_of_mem_terminate hp)
  · intro x r hne
    rw [hassocs, alookup_terminate]
    by_cases hx : x ∈ c.runnings
    · rw [if_pos hx]
      constructor
      · intro h
        cases h
      · intro h
        obtain ⟨r', hr', hrs'⟩ := (hI.iffOwn x).mp hx
        rw [h] at hr'
        cases hr'
        exact absurd hrs' hne
    · rw [if_neg hx]

/-- Any single owns-disciplined callback step succeeds (no panic) and
preserves the session-local invariant and the foreign records. -/
theorem runSOp_cinv {sid connId : Nat} {c : SessCtx} {pk : List Tracking} {op : SOp}
    (hI : CInv sid c pk) (hown : sopOwn c pk op = true) :
    ∃ c' pk', runSOp sid connId c pk op = some (c', pk') ∧ CInv sid c' pk' ∧
      c.fresh ≤ c'.fresh ∧ Foreign sid c.assocs c'.assocs := by
  cases op with
  | newReq cmd =>
    obtain ⟨h1, h2, h3⟩ := @cinv_newReq sid connId c pk cmd hI
    exact ⟨_, _, rfl, h1, h2, h3⟩
  | popReq id =>
    have hmem : id ∈ c.runnings := by
      simpa [sopOwn] using hown
    obtain ⟨req, hreq, hsess, hpop, hCI, hF⟩ := cinv_popReq hI hmem
    refine ⟨_, _, ?_, hCI, Nat.le_refl _, hF⟩
    show (match SessionImpl.pop id c with
      | (SessionImpl.PopResult.ok t, c') => some (c', pk ++ [t])
      | (SessionImpl.PopResult.notFound, c') => some (c', pk)
      | (SessionImpl.PopResult.panicked, _) => none) = _
    rw [hpop]
  | reuseReq k =>
    have hk : k < pk.length := by
      simpa [sopOwn] using hown
    obtain ⟨hCI, hF⟩ := cinv_reuseReq hI hk
    refine ⟨_, _, ?_, hCI, Nat.le_refl _, hF⟩
    show (if h : k < pk.length then
        some (SessionImpl.reuse sid (pk.get ⟨k, h⟩) c, pk.eraseIdx k)
      else some (c, pk)) = _
    rw [dif_pos hk]
  | useSet id cmd =>
    have hmem : id ∈ c.runnings := by
      simpa [sopOwn] using hown
    obtain ⟨hCI, hF⟩ := cinv_useSet cmd hI hmem
    exact ⟨_, _, rfl, hCI, Nat.le_refl _, hF⟩
  | terminateReq =>
    obtain ⟨hCI, hF⟩ := cinv_terminate hI
    exact ⟨_, _, rfl, hCI, Nat.le_refl _, hF⟩

/-- A whole owns-disciplined callback run succeeds and preserves the
session-local invariant and the foreign records. -/
theorem runProg_cinv {sid connId : Nat} (ops : List SOp) : ∀ (c : SessCtx) (pk : List Tracking),
    CInv sid c pk → progOwn sid connId ops c pk = true →
    ∃ c' pk', runProg sid connId ops c pk = some (c', pk') ∧ CInv sid c' pk' ∧
      c.fresh ≤ c'.fresh ∧ Foreign sid c.assocs c'.assocs := by
  induction ops with
  | nil =>
    intro c pk hI _
    exact ⟨c, pk, rfl, hI, Nat.le_refl _, Foreign.rfl⟩
  | cons op rest ih =>
    intro c pk hI hown
    rw [show progOwn sid connId (op :: rest) c pk =
      (sopOwn c pk op &&
        match runSOp sid connId c pk op with
        | some (c', pk') => progOwn sid connId rest c' pk'
        | none => false) from rfl, Bool.and_eq_true] at hown
    obtain ⟨c1, pk1, hrun, hCI1, hf1, hF1⟩ := runSOp_cinv hI hown.1
    have hrest : progOwn sid connId rest c1 pk1 = true := by
      have := hown.2
      rw [hrun] at this
      exact this
    obtain ⟨c2, pk2, hrun2, hCI2, hf2, hF2⟩ := ih c1 pk1 hCI1 hrest
    refine ⟨c2, pk2, ?_, hCI2, Nat.le_trans hf1 hf2, hF1.trans hF2⟩
    show (match runSOp sid connId c pk op with
      | some (c', pk') => runProg sid connId rest c' pk'
      | none => none) = some (c2, pk2)
    rw [hrun]
    exact hrun2

/-! ### Bridging the table invariant and the session invariant -/

theorem mem_ainsert {α : Type} {l : List (Nat × α)} {k : Nat} {v : α} {p : Nat × α}
    (h : p ∈ ainsert l k v) : p ∈ l ∨ p = (k, v) := by
  induction l with
  | nil => simpa [ainsert] using h
  | cons q t ih =>
    obtain ⟨k', w⟩ := q
    by_cases hk : k' = k
    · rw [show ainsert ((k', w) :: t) k v = (k, v) :: t from by simp [ainsert, hk]] at h
      rcases List.mem_cons.mp h with h | h
      · exact Or.inr h
      · exact Or.inl (List.mem_cons_of_mem _ h)
    · rw [show ainsert ((k', w) :: t) k v = (k', w) :: ainsert t k v from by
        simp [ainsert, hk]] at h
      rcases List.mem_cons.mp h with h | h
      · exact Or.inl (by simp [h])
      · rcases ih h with h | h
        · exact Or.inl (List.mem_cons_of_mem _ h)
        · exact Or.inr h

theorem mem_ainsert_nodup {α : Type} {l : List (Nat × α)} {k : Nat} {v : α} {p : Nat × α}
    (hn : (keys l).Nodup) (h : p ∈ ainsert l k v) : (p ∈ l ∧ p.1 ≠ k) ∨ p = (k, v) := by
  rcases mem_ainsert h with hm | hm
  · by_cases hp : p.1 = k
    · right
      obtain ⟨x, w⟩ := p
      simp only at hp
      subst hp
      have h1 : alookup l x = some w := mem_alookup hn hm
      have h2 : alookup (ainsert l x v) x = some v := by
        rw [alookup_ainsert, if_pos rfl]
      have h3 : alookup (ainsert l x v) x = some w :=
        mem_alookup (nodup_keys_ainsert _ _ _ hn) h
      rw [h2] at h3
      cases h3
      rfl
    · exact Or.inl ⟨hm, hp⟩
  · exact Or.inr hm

theorem mem_aremove_ne {α : Type} {l : List (Nat × α)} {k : Nat} {p : Nat × α}
    (h : p ∈ aremove l k) : p.1 ≠ k := by
  induction l with
  | nil => simp [aremove] at h
  | cons q t ih =>
    obtain ⟨k', w⟩ := q
    by_cases hk : k' = k
    · rw [show aremove ((k', w) :: t) k = aremove t k from by simp [aremove, hk]] at h
      exact ih h
    · rw [show aremove ((k', w) :: t) k = (k', w) :: aremove t k from by
        simp [aremove, hk]] at h
      rcases List.mem_cons.mp h with h | h
      · subst h
        exact hk
      · exact ih h

/-- Removing then re-inserting the same record does not change the map. -/
theorem alookup_reinsert {l : List (Nat × Request)} {pid : Nat} {req : Request}
    (h : alookup l pid = some req) (x : Nat) :
    alookup (ainsert (aremove l pid) pid req) x = alookup l x := by
  rw [alookup_ainsert, alookup_aremove]
  by_cases hx : x = pid
  · subst hx
    rw [if_pos rfl, h]
  · rw [if_neg hx, if_neg hx]

theorem mem_reinsert {l : List (Nat × Request)} {pid : Nat} {req : Request} {p : Nat × Request}
    (hreq : alookup l pid = some req)
    (h : p ∈ ainsert (aremove l pid) pid req) : p ∈ l := by
  rcases mem_ainsert h with h | h
  · exact mem_of_mem_aremove h
  · rw [h]
    exact alookup_mem hreq

/-- The two directions of the lock-step invariant in `alookup` form. -/
theorem inv_memIff {rq : Requests} (hInv : Inv rq) {sid : Nat} {l : List Nat}
    (hsri : alookup rq.session_request_ids sid = some l) (id : Nat) :
    id ∈ l ↔ ∃ req, alookup rq.assocs id = some req ∧ req.session = sid := by
  constructor
  · intro hid
    have hmem : (sid, l) ∈ rq.session_request_ids := alookup_mem hsri
    have := hInv.memTo (sid, l) hmem id hid
    rw [ownerOf] at this
    cases hreq : alookup rq.assocs id with
    | none => rw [hreq] at this; cases this
    | some req =>
      rw [hreq] at this
      simp only [Option.map_some] at this
      cases this
      exact ⟨req, rfl, rfl⟩
  · rintro ⟨req, hreq, hsess⟩
    have hmem : (id, req) ∈ rq.assocs := alookup_mem hreq
    have := hInv.memFrom (id, req) hmem
    rw [idInRun] at this
    cases hl : alookup rq.session_request_ids req.session with
    | none => rw [hl] at this; cases this
    | some l' =>
      rw [hl] at this
      rw [hsess] at hl
      rw [hsri] at hl
      cases hl
      exact List.mem_of_elem_eq_true (by simpa [List.contains] using this)

/-- No record is owned by an operation id absent from the running-list
map. -/
theorem inv_no_records {rq : Requests} (hInv : Inv rq) {sid : Nat}
    (hnot : sid ∉ keys rq.session_request_ids) :
    ∀ id req, alookup rq.assocs id = some req → req.session ≠ sid := by
  intro id req hreq hsess
  have hmem : (id, req) ∈ rq.assocs := alookup_mem hreq
  have := hInv.memFrom (id, req) hmem
  rw [idInRun] at this
  cases hl : alookup rq.session_request_ids req.session with
  | none => rw [hl] at this; cases this
  | some l' =>
    apply hnot
    rw [← hsess]
    exact (alookup_isSome_iff _ _).mp ⟨l', hl⟩

/-- Entering a callback for a registered operation: the table invariant
restricted to that session. -/
theorem inv_cinv {rq : Requests} (hInv : Inv rq) {sid : Nat} {runnings : List Nat}
    (hsri : alookup rq.session_request_ids sid = some runnings) :
    CInv sid ⟨rq.assocs, runnings, rq.fresh⟩ [] := by
  have hmem : (sid, runnings) ∈ rq.session_request_ids := alookup_mem hsri
  refine ⟨hInv.nodupA, hInv.listNodup _ hmem, ?_, hInv.freshA, ?_, ?_, ?_, ?_, hInv.trackId⟩
  · intro id
    exact inv_memIff hInv hsri id
  · intro id hid
    exact hInv.freshRun _ hmem id hid
  · intro t ht
    cases ht
  · intro t ht
    cases ht
  · exact List.nodup_nil

/-- Entering the `send` callback of a freshly registered operation. -/
theorem inv_cinv_new {rq : Requests} (hInv : Inv rq) {sid : Nat}
    (hnot : sid ∉ keys rq.session_request_ids) :
    CInv sid ⟨rq.assocs, [], rq.fresh⟩ [] := by
  refine ⟨hInv.nodupA, List.nodup_nil, ?_, hInv.freshA, ?_, ?_, ?_, ?_, hInv.trackId⟩
  · intro id
    constructor
    · intro h
      cases h
    · rintro ⟨req, hreq, hsess⟩
      exact absurd hsess (inv_no_records hInv hnot id req hreq)
  · intro id hid
    cases hid
  · intro t ht
    cases ht
  · intro t ht
    cases ht
  · exact List.nodup_nil

theorem idInRun_iff (sri : List (Nat × List Nat)) (sid id : Nat) :
    idInRun sri sid id = true ↔ ∃ l, alookup sri sid = some l ∧ id ∈ l := by
  rw [idInRun]
  cases hl : alookup sri sid with
  | none => simp
  | some l =>
    simp only [Option.some.injEq]
    constructor
    · intro h
      exact ⟨l, rfl, List.mem_of_elem_eq_true (by simpa [List.contains] using h)⟩
    · rintro ⟨l', hl', hm⟩
      cases hl'
      simpa [List.contains] using List.elem_eq_true_of_mem hm

/-- Writing an operation's updated running-list back (session stays
active) preserves the table invariant. -/
theorem inv_writeback_update {rq : Requests} (hInv : Inv rq) {sid : Nat}
    {runnings : List Nat} (hsri : alookup rq.session_request_ids sid = some runnings)
    {c2 : SessCtx} {pk2 : List Tracking}
    (hCI : CInv sid c2 pk2) (hF : Foreign sid rq.assocs c2.assocs)
    (hfr : rq.fresh ≤ c2.fresh) :
    Inv ⟨rq.sessions, ainsert rq.session_request_ids sid c2.runnings,
      c2.assocs, c2.fresh⟩ := by
  have hsidkey : sid ∈ keys rq.session_request_ids :=
    (alookup_isSome_iff _ _).mp ⟨runnings, hsri⟩
  refine ⟨hCI.nodupA, hInv.nodupS, nodup_keys_ainsert _ _ _ hInv.nodupR, ?_, ?_, ?_, ?_,
    ?_, hCI.trackId, hInv.sessId, hCI.freshA, ?_, ?_⟩
  · intro x hx
    exact (keys_ainsert_mem _ _ _ _).mpr (Or.inl (hInv.sToR x hx))
  · intro x hx
    rcases (keys_ainsert_mem _ _ _ _).mp hx with hx | hx
    · exact hInv.rToS x hx
    · subst hx
      exact hInv.rToS x hsidkey
  · intro p hp
    rcases mem_ainsert_nodup hInv.nodupR hp with ⟨hp, _⟩ | hp
    · exact hInv.listNodup p hp
    · rw [hp]
      exact hCI.nodupR
  · intro p hp id hid
    rcases mem_ainsert_nodup hInv.nodupR hp with ⟨hpm, hpne⟩ | hpe
    · have h := hInv.memTo p hpm id hid
      rw [ownerOf] at h ⊢
      cases hreq : alookup rq.assocs id with
      | none => rw [hreq] at h; cases h
      | some req =>
        rw [hreq] at h
        simp only [Option.map_some', Option.some.injEq] at h
        have hnes : req.session ≠ sid := by
          rw [h]
          exact hpne
        rw [(hF id req hnes).mpr hreq]
        simp [h]
    · rw [hpe] at hid ⊢
      obtain ⟨req, hreq, hsess⟩ := (hCI.iffOwn id).mp hid
      rw [ownerOf, hreq]
      simp [hsess]
  · intro p hp
    have hlook : alookup c2.assocs p.1 = some p.2 := mem_alookup hCI.nodupA hp
    by_cases hsess : p.2.session = sid
    · rw [idInRun_iff]
      refine ⟨c2.runnings, ?_, ?_⟩
      · rw [hsess, alookup_ainsert, if_pos rfl]
      · exact (hCI.iffOwn p.1).mpr ⟨p.2, hlook, hsess⟩
    · have hold : alookup rq.assocs p.1 = some p.2 := (hF p.1 p.2 hsess).mp hlook
      have h := hInv.memFrom p (alookup_mem hold)
      rw [idInRun_iff] at h ⊢
      obtain ⟨l, hl, hm⟩ := h
      refine ⟨l, ?_, hm⟩
      rw [alookup_ainsert, if_neg hsess, hl]
  · intro p hp id hid
    rcases mem_ainsert_nodup hInv.nodupR hp with ⟨hpm, _⟩ | hpe
    · exact Nat.lt_of_lt_of_le (hInv.freshRun p hpm id hid) hfr
    · rw [hpe] at hid
      exact hCI.freshR id hid
  · intro x hx
    rcases (keys_ainsert_mem _ _ _ _).mp hx with hx | hx
    · exact Nat.lt_of_lt_of_le (hInv.freshR x hx) hfr
    · subst hx
      exact Nat.lt_of_lt_of_le (hInv.freshR x hsidkey) hfr

/-- Removing a concluded operation (empty running-list left) from both
active maps preserves the table invariant. -/
theorem inv_writeback_remove {rq : Requests} (hInv : Inv rq) {sid : Nat}
    {runnings : List Nat} (_hsri : alookup rq.session_request_ids sid = some runnings)
    {c2 : SessCtx} {pk2 : List Tracking}
    (hCI : CInv sid c2 pk2) (hF : Foreign sid rq.assocs c2.assocs)
    (hfr : rq.fresh ≤ c2.fresh) (hempty : c2.runnings = []) :
    Inv ⟨aremove rq.sessions sid, aremove rq.session_request_ids sid,
      c2.assocs, c2.fresh⟩ := by
  refine ⟨hCI.nodupA, nodup_keys_aremove _ _ hInv.nodupS,
    nodup_keys_aremove _ _ hInv.nodupR, ?_, ?_, ?_, ?_, ?_, hCI.trackId, ?_,
    hCI.freshA, ?_, ?_⟩
  · intro x hx
    obtain ⟨hx1, hx2⟩ := (keys_aremove_mem _ _ _).mp hx
    exact (keys_aremove_mem _ _ _).mpr ⟨hInv.sToR x hx1, hx2⟩
  · intro x hx
    obtain ⟨hx1, hx2⟩ := (keys_aremove_mem _ _ _).mp hx
    exact (keys_aremove_mem _ _ _).mpr ⟨hInv.rToS x hx1, hx2⟩
  · intro p hp
    exact hInv.listNodup p (mem_of_mem_aremove hp)
  · intro p hp id hid
    have hpm := mem_of_mem_aremove hp
    have hpne := mem_aremove_ne hp
    have h := hInv.memTo p hpm id hid
    rw [ownerOf] at h ⊢
    cases hreq : alookup rq.assocs id with
    | none => rw [hreq] at h; cases h
    | some req =>
      rw [hreq] at h
      simp only [Option.map_some', Option.some.injEq] at h
      have hnes : req.session ≠ sid := by
        rw [h]
        exact hpne
      rw [(hF id req hnes).mpr hreq]
      simp [h]
  · intro p hp
    have hlook : alookup c2.assocs p.1 = some p.2 := mem_alookup hCI.nodupA hp
    by_cases hsess : p.2.session = sid
    · have := (hCI.iffOwn p.1).mpr ⟨p.2, hlook, hsess⟩
      rw [hempty] at this
      cases this
    · have hold : alookup rq.assocs p.1 = some p.2 := (hF p.1 p.2 hsess).mp hlook
      have h := hInv.memFrom p (alookup_mem hold)
      rw [idInRun_iff] at h ⊢
      obtain ⟨l, hl, hm⟩ := h
      refine ⟨l, ?_, hm⟩
      rw [alookup_aremove, if_neg hsess, hl]
  · intro p hp
    exact hInv.sessId p (mem_of_mem_aremove hp)
  · intro p hp id hid
    exact Nat.lt_of_lt_of_le (hInv.freshRun p (mem_of_mem_aremove hp) id hid) hfr
  · intro x hx
    exact Nat.lt_of_lt_of_le
      (hInv.freshR x ((keys_aremove_mem _ _ _).mp hx).1) hfr

/-- Committing a successfully registered operation into the active maps
preserves the table invariant. -/
theorem inv_register_ok {rq : Requests} (hInv : Inv rq) {op : Op}
    (_hnot : op.id ∉ keys rq.session_request_ids) (hid : op.id < rq.fresh)
    {c1 : SessCtx} {pk1 : List Tracking}
    (hCI : CInv op.id c1 pk1) (hF : Foreign op.id rq.assocs c1.assocs)
    (hfr : rq.fresh ≤ c1.fresh) :
    Inv ⟨ainsert rq.sessions op.id op, ainsert rq.session_request_ids op.id c1.runnings,
      c1.assocs, c1.fresh⟩ := by
  refine ⟨hCI.nodupA, nodup_keys_ainsert _ _ _ hInv.nodupS,
    nodup_keys_ainsert _ _ _ hInv.nodupR, ?_, ?_, ?_, ?_, ?_, hCI.trackId, ?_,
    hCI.freshA, ?_, ?_⟩
  · intro x hx
    rcases (keys_ainsert_mem _ _ _ _).mp hx with hx | hx
    · exact (keys_ainsert_mem _ _ _ _).mpr (Or.inl (hInv.sToR x hx))
    · exact (keys_ainsert_mem _ _ _ _).mpr (Or.inr hx)
  · intro x hx
    rcases (keys_ainsert_mem _ _ _ _).mp hx with hx | hx
    · exact (keys_ainsert_mem _ _ _ _).mpr (Or.inl (hInv.rToS x hx))
    · exact (keys_ainsert_mem _ _ _ _).mpr (Or.inr hx)
  · intro p hp
    rcases mem_ainsert_nodup hInv.nodupR hp with ⟨hp, _⟩ | hp
    · exact hInv.listNodup p hp
    · rw [hp]
      exact hCI.nodupR
  · intro p hp id hid2
    rcases mem_ainsert_nodup hInv.nodupR hp with ⟨hpm, hpne⟩ | hpe
    · have h := hInv.memTo p hpm id hid2
      rw [ownerOf] at h ⊢
      cases hreq : alookup rq.assocs id with
      | none => rw [hreq] at h; cases h
      | some req =>
        rw [hreq] at h
        simp only [Option.map_some', Option.some.injEq] at h
        have hnes : req.session ≠ op.id := by
          rw [h]
          exact hpne
        rw [(hF id req hnes).mpr hreq]
        simp [h]
    · rw [hpe] at hid2 ⊢
      obtain ⟨req, hreq, hsess⟩ := (hCI.iffOwn id).mp hid2
      rw [ownerOf, hreq]
      simp [hsess]
  · intro p hp
    have hlook : alookup c1.assocs p.1 = some p.2 := mem_alookup hCI.nodupA hp
    by_cases hsess : p.2.session = op.id
    · rw [idInRun_iff]
      refine ⟨c1.runnings, ?_, ?_⟩
      · rw [hsess, alookup_ainsert, if_pos rfl]
      · exact (hCI.iffOwn p.1).mpr ⟨p.2, hlook, hsess⟩
    · have hold : alookup rq.assocs p.1 = some p.2 := (hF p.1 p.2 hsess).mp hlook
      have h := hInv.memFrom p (alookup_mem hold)
      rw [idInRun_iff] at h ⊢
      obtain ⟨l, hl, hm⟩ := h
      refine ⟨l, ?_, hm⟩
      rw [alookup_ainsert, if_neg hsess, hl]
  · intro p hp
    rcases mem_ainsert_nodup hInv.nodupS hp with ⟨hp, _⟩ | hp
    · exact hInv.sessId p hp
    · rw [hp]
  · intro p hp id hid2
    rcases mem_ainsert_nodup hInv.nodupR hp with ⟨hpm, _⟩ | hpe
    · exact Nat.lt_of_lt_of_le (hInv.freshRun p hpm id hid2) hfr
    · rw [hpe] at hid2
      exact hCI.freshR id hid2
  · intro x hx
    rcases (keys_ainsert_mem _ _ _ _).mp hx with hx | hx
    · exact Nat.lt_of_lt_of_le (hInv.freshR x hx) hfr
    · subst hx
      exact Nat.lt_of_lt_of_le hid hfr

/-- Unwinding a failed registration (`terminate` on the fresh running-list)
restores the table invariant; the active maps were never touched. -/
theorem inv_register_err {rq : Requests} (hInv : Inv rq) {sid : Nat}
    (hnot : sid ∉ keys rq.session_request_ids)
    {c1 : SessCtx} {pk1 : List Tracking}
    (hCI : CInv sid c1 pk1) (hF : Foreign sid rq.assocs c1.assocs)
    (hfr : rq.fresh ≤ c1.fresh) :
    Inv ⟨rq.sessions, rq.session_request_ids,
      terminate c1.assocs c1.runnings, c1.fresh⟩ := by
  refine ⟨nodup_keys_terminate _ _ hCI.nodupA, hInv.nodupS, hInv.nodupR,
    hInv.sToR, hInv.rToS, hInv.listNodup, ?_, ?_, ?_, hInv.sessId, ?_, ?_, ?_⟩
  · intro p hp id hid2
    have hpne : p.1 ≠ sid := by
      intro hh
      exact hnot (hh ▸ mem_keys_of_mem hp)
    have h := hInv.memTo p hp id hid2
    rw [ownerOf] at h ⊢
    cases hreq : alookup rq.assocs id with
    | none => rw [hreq] at h; cases h
    | some req =>
      rw [hreq] at h
      simp only [Option.map_some', Option.some.injEq] at h
      have hnes : req.session ≠ sid := by
        rw [h]
        exact hpne
      have hc1 : alookup c1.assocs id = some req := (hF id req hnes).mpr hreq
      have hnotrun : id ∉ c1.runnings := by
        intro hmem
        obtain ⟨req', hreq', hsess'⟩ := (hCI.iffOwn id).mp hmem
        rw [hc1] at hreq'
        cases hreq'
        exact hnes hsess'
      rw [alookup_terminate, if_neg hnotrun, hc1]
      simp [h]
  · intro p hp
    have hmem1 : p ∈ c1.assocs := mem_of_mem_terminate hp
    have hlookT : alookup (terminate c1.assocs c1.runnings) p.1 = some p.2 :=
      mem_alookup (nodup_keys_terminate _ _ hCI.nodupA) hp
    rw [alookup_terminate] at hlookT
    by_cases hrun : p.1 ∈ c1.runnings
    · rw [if_pos hrun] at hlookT
      cases hlookT
    · rw [if_neg hrun] at hlookT
      by_cases hsess : p.2.session = sid
      · exact absurd ((hCI.iffOwn p.1).mpr ⟨p.2, hlookT, hsess⟩) hrun
      · have hold : alookup rq.assocs p.1 = some p.2 := (hF p.1 p.2 hsess).mp hlookT
        exact hInv.memFrom p (alookup_mem hold)
  · intro p hp
    exact hCI.trackId p (mem_of_mem_terminate hp)
  · intro p hp
    exact Nat.lt_of_lt_of_le (hCI.freshA p (mem_of_mem_terminate hp)) (Nat.le_refl _)
  · intro p hp id hid2
    exact Nat.lt_of_lt_of_le (hInv.freshRun p hp id hid2) hfr
  · intro x hx
    exact Nat.lt_of_lt_of_le (hInv.freshR x hx) hfr

theorem foreign_ext {sid : Nat} {a b : List (Nat × Request)}
    (h : ∀ x, alookup b x = alookup a x) : Foreign sid a b :=
  fun x _ _ => by rw [h x]

/-- Removing and re-inserting the found record (`handle_pkg` step 2)
preserves the table invariant. -/
theorem inv_reinsert {rq : Requests} (hInv : Inv rq) {pid : Nat} {req : Request}
    (hreq : alookup rq.assocs pid = some req) :
    Inv { rq with assocs := ainsert (aremove rq.assocs pid) pid req } := by
  have hlook := alookup_reinsert hreq
  refine ⟨nodup_keys_ainsert _ _ _ (nodup_keys_aremove _ _ hInv.nodupA),
    hInv.nodupS, hInv.nodupR, hInv.sToR, hInv.rToS, hInv.listNodup, ?_, ?_, ?_,
    hInv.sessId, ?_, hInv.freshRun, hInv.freshR⟩
  · intro p hp id hid
    show ownerOf (ainsert (aremove rq.assocs pid) pid req) id = some p.1
    rw [ownerOf, hlook id]
    exact hInv.memTo p hp id hid
  · intro p hp
    exact hInv.memFrom p (mem_reinsert hreq hp)
  · intro p hp
    exact hInv.trackId p (mem_reinsert hreq hp)
  · intro p hp
    exact hInv.freshA p (mem_reinsert hreq hp)

/-- Any dispatch with an owns-disciplined callback succeeds (`some`) and
returns a context satisfying the session invariant. -/
theorem dispatch_cinv {conn : Connection} {pkg : Pkg} {sid : Nat} {op : Op}
    {c0 : SessCtx} (hCI : CInv sid c0 [])
    {failedOut : Bool} {c1 : SessCtx} {evs1 : List Event}
    (hdisp : dispatch conn pkg sid op c0 = some (failedOut, c1, evs1, true)) :
    (∃ pk1, CInv sid c1 pk1) ∧ Foreign sid c0.assocs c1.assocs ∧
      c0.fresh ≤ c1.fresh := by
  rw [dispatch] at hdisp
  split at hdisp
  · simp only [Option.some.injEq, Prod.mk.injEq] at hdisp
    rw [← hdisp.2.1]
    exact ⟨⟨[], hCI⟩, Foreign.rfl, Nat.le_refl _⟩
  · simp only [Option.some.injEq, Prod.mk.injEq] at hdisp
    rw [← hdisp.2.1]
    exact ⟨⟨[], hCI⟩, Foreign.rfl, Nat.le_refl _⟩
  · -- notHandled
    split at hdisp
    · simp only [Option.some.injEq, Prod.mk.injEq] at hdisp
      rw [← hdisp.2.1]
      exact ⟨⟨[], hCI⟩, Foreign.rfl, Nat.le_refl _⟩
    · simp only [Option.some.injEq, Prod.mk.injEq] at hdisp
      rw [← hdisp.2.1]
      exact ⟨⟨[], hCI⟩, Foreign.rfl, Nat.le_refl _⟩
    · -- retry path
      split at hdisp
      · exact absurd hdisp (by simp)
      · next c1' pk1' heq =>
        split at hdisp <;>
          (simp only [Option.some.injEq, Prod.mk.injEq] at hdisp
           obtain ⟨-, hc, -, hown⟩ := hdisp
           obtain ⟨c'', pk'', hrun'', hCI'', hfr'', hF''⟩ :=
             runProg_cinv (op.spec.retry pkg.correlation).ops c0 [] hCI hown
           rw [heq] at hrun''
           simp only [Option.some.injEq, Prod.mk.injEq] at hrun''
           rw [← hc, hrun''.1]
           exact ⟨⟨pk'', hCI''⟩, hF'', hfr''⟩)
  · -- receive path
    split at hdisp
    · exact absurd hdisp (by simp)
    · next c1' pk1' heq =>
      split at hdisp <;>
        (simp only [Option.some.injEq, Prod.mk.injEq] at hdisp
         obtain ⟨-, hc, -, hown⟩ := hdisp
         obtain ⟨c'', pk'', hrun'', hCI'', hfr'', hF''⟩ :=
           runProg_cinv (op.spec.receive pkg).ops c0 [] hCI hown
         rw [heq] at hrun''
         simp only [Option.some.injEq, Prod.mk.injEq] at hrun''
         rw [← hc, hrun''.1]
         exact ⟨⟨pk'', hCI''⟩, hF'', hfr''⟩)

/-- Any owns-disciplined registration preserves the table invariant; the
only running-list key it can add is the operation's own id. -/
theorem register_inv {rq : Requests} {conn : Connection} {op : Op} {rq' : Requests}
    {evs : List Event}
    (hInv : Inv rq) (hnot : op.id ∉ keys rq.session_request_ids) (hid : op.id < rq.fresh)
    (h : Requests.register conn op rq = some (rq', evs, true)) :
    Inv rq' ∧ rq.fresh ≤ rq'.fresh ∧
      (∀ x ∈ keys rq'.session_request_ids, x ∈ keys rq.session_request_ids ∨ x = op.id) := by
  have hCI0 : CInv op.id ⟨rq.assocs, [], rq.fresh⟩ [] := inv_cinv_new hInv hnot
  rw [Requests.register] at h
  split at h
  · cases h
  · next c1 pk1 heq =>
    split at h
    · next outcome hres =>
      simp only [Option.some.injEq, Prod.mk.injEq] at h
      obtain ⟨hrq', -, hown⟩ := h
      obtain ⟨c'', pk'', hrun'', hCI'', hfr'', hF''⟩ :=
        runProg_cinv op.spec.send.ops ⟨rq.assocs, [], rq.fresh⟩ [] hCI0 hown
      rw [heq] at hrun''
      simp only [Option.some.injEq, Prod.mk.injEq] at hrun''
      obtain ⟨hc, -⟩ := hrun''
      subst hc
      rw [← hrq']
      refine ⟨inv_register_ok hInv hnot hid hCI'' hF'' hfr'', hfr'', ?_⟩
      intro x hx
      exact (keys_ainsert_mem _ _ _ _).mp hx
    · next e hres =>
      simp only [Option.some.injEq, Prod.mk.injEq] at h
      obtain ⟨hrq', -, hown⟩ := h
      obtain ⟨c'', pk'', hrun'', hCI'', hfr'', hF''⟩ :=
        runProg_cinv op.spec.send.ops ⟨rq.assocs, [], rq.fresh⟩ [] hCI0 hown
      rw [heq] at hrun''
      simp only [Option.some.injEq, Prod.mk.injEq] at hrun''
      obtain ⟨hc, -⟩ := hrun''
      subst hc
      rw [← hrq']
      exact ⟨inv_register_err hInv hnot hCI'' hF'' hfr'', hfr'',
        fun x hx => Or.inl hx⟩

/-- Case analysis of `handleFinish`. -/
theorem handleFinish_eq {rq : Requests} {sid : Nat} {c2 : SessCtx} {evs : List Event}
    {own : Bool} {rq' : Requests} {evs' : List Event} {own' : Bool}
    (h : handleFinish rq sid c2 evs own = (rq', evs', own')) :
    evs' = evs ∧ own' = own ∧
      ((c2.runnings = [] ∧
        rq' = ⟨aremove rq.sessions sid, aremove rq.session_request_ids sid,
          c2.assocs, c2.fresh⟩) ∨
       (c2.runnings ≠ [] ∧
        rq' = { rq with
          session_request_ids := ainsert rq.session_request_ids sid c2.runnings,
          assocs := c2.assocs, fresh := c2.fresh })) := by
  rw [handleFinish] at h
  split at h
  · next hemp =>
    simp only [Prod.mk.injEq] at h
    obtain ⟨h1, h2, h3⟩ := h
    exact ⟨h2.symm, h3.symm, Or.inl ⟨List.isEmpty_iff.mp hemp, h1.symm⟩⟩
  · next hemp =>
    simp only [Prod.mk.injEq] at h
    obtain ⟨h1, h2, h3⟩ := h
    refine ⟨h2.symm, h3.symm, Or.inr ⟨?_, h1.symm⟩⟩
    intro hnil
    exact hemp (List.isEmpty_iff.mpr hnil)

/-- Any owns-disciplined `handle_pkg` call preserves the table invariant
and adds no running-list key. -/
theorem handle_inv {rq : Requests} {conn : Connection} {pkg : Pkg} {rq' : Requests}
    {evs : List Event}
    (hInv : Inv rq)
    (h : Requests.handle_pkg conn pkg rq = some (rq', evs, true)) :
    Inv rq' ∧ rq.fresh ≤ rq'.fresh ∧
      (∀ x ∈ keys rq'.session_request_ids, x ∈ keys rq.session_request_ids) := by
  rw [Requests.handle_pkg] at h
  split at h
  · simp only [Option.some.injEq, Prod.mk.injEq] at h
    obtain ⟨hrq, -, -⟩ := h
    rw [← hrq]
    exact ⟨hInv, Nat.le_refl _, fun x hx => hx⟩
  · next req hcor =>
    split at h
    · cases h
    · next runnings hsri =>
      split at h
      · cases h
      · next op hsess =>
        split at h
        · cases h
        · next failedOut c1 evs1 own1 hdisp =>
          simp only [Option.some.injEq] at h
          obtain ⟨-, hown1, hcases⟩ := handleFinish_eq h
          subst hown1
          have hCI0 : CInv req.session
              ⟨ainsert (aremove rq.assocs pkg.correlation) pkg.correlation req,
                runnings, rq.fresh⟩ [] :=
            inv_cinv (inv_reinsert hInv hcor) hsri
          obtain ⟨⟨pk1, hCI1⟩, hF1, hfr1⟩ := dispatch_cinv hCI0 hdisp
          have hFr : Foreign req.session rq.assocs c1.assocs :=
            (foreign_ext (alookup_reinsert hcor)).trans hF1
          have hCI2 : ∃ pk2, CInv req.session
              (if failedOut then SessionImpl.terminateSession c1 else c1) pk2 := by
            cases failedOut with
            | true => exact ⟨pk1, (cinv_terminate hCI1).1⟩
            | false => exact ⟨pk1, hCI1⟩
          have hFr2 : Foreign req.session rq.assocs
              (if failedOut then SessionImpl.terminateSession c1 else c1).assocs := by
            cases failedOut with
            | true => exact hFr.trans (cinv_terminate hCI1).2
            | false => exact hFr
          have hfr2 : rq.fresh ≤
              (if failedOut then SessionImpl.terminateSession c1 else c1).fresh := by
            cases failedOut with
            | true => exact hfr1
            | false => exact hfr1
          obtain ⟨pk2, hCI2⟩ := hCI2
          rcases hcases with ⟨hemp, hrq'⟩ | ⟨hemp, hrq'⟩
          · rw [hrq']
            refine ⟨inv_writeback_remove hInv hsri hCI2 hFr2 hfr2 hemp, hfr2, ?_⟩
            intro x hx
            exact ((keys_aremove_mem _ _ _).mp hx).1
          · rw [hrq']
            refine ⟨inv_writeback_update hInv hsri hCI2 hFr2 hfr2, hfr2, ?_⟩
            intro x hx
            rcases (keys_ainsert_mem _ _ _ _).mp hx with hx | hx
            · exact hx
            · subst hx
              exact (alookup_isSome_iff _ _).mp ⟨runnings, hsri⟩

/-! ### The periodic sweep -/

theorem sweepStep_own {connId : Nat} {st st' : SweepSt} {e : Nat × Op}
    (h : sweepStep connId st e = some st') : ∃ b, st'.own = (st.own && b) := by
  rw [sweepStep] at h
  split at h
  · cases h
  · split at h
    · cases h
    · split at h
      · split at h <;>
          (simp only [Option.some.injEq] at h
           rw [← h]
           exact ⟨_, rfl⟩)
      · simp only [Option.some.injEq] at h
        rw [← h]
        exact ⟨_, rfl⟩

theorem sweepGo_own {connId : Nat} : ∀ {l : List (Nat × Op)} {st stF : SweepSt},
    sweepGo connId l st = some stF → stF.own = true → st.own = true := by
  intro l
  induction l with
  | nil =>
    intro st stF h hown
    rw [sweepGo] at h
    injection h with h
    rw [h]
    exact hown
  | cons e rest ih =>
    intro st stF h hown
    rw [sweepGo] at h
    split at h
    · next st' heq =>
      have h1 := ih h hown
      obtain ⟨b, hb⟩ := sweepStep_own heq
      rw [hb] at h1
      exact (Bool.and_eq_true _ _).mp h1 |>.1
    · cases h

/-- The invariant threaded through the sweep fold: the table invariant over
the fixed sessions map and the mutating side state, plus: every scheduled
deletion already has a drained running-list and owns no record. -/
structure SweepInv (sessions : List (Nat × Op)) (st : SweepSt) : Prop where
  inv : Inv ⟨sessions, st.sri, st.assocs, st.fresh⟩
  delsOk : ∀ sid ∈ st.dels, alookup st.sri sid = some [] ∧
    (∀ id req, alookup st.assocs id = some req → req.session ≠ sid)
  delsNodup : st.dels.Nodup

theorem sweepStep_inv {connId : Nat} {sessions : List (Nat × Op)} {st st' : SweepSt}
    {sid : Nat} {op : Op}
    (hSI : SweepInv sessions st)
    (hmem : (sid, op) ∈ sessions) (hopid : op.id = sid) (hnd : sid ∉ st.dels)
    (hstep : sweepStep connId st (sid, op) = some st')
    (hown : st'.own = true) :
    SweepInv sessions st' ∧ st.fresh ≤ st'.fresh ∧
      (∀ x ∈ keys st'.sri, x ∈ keys st.sri) ∧
      (st'.dels = st.dels ∨ st'.dels = st.dels ++ [sid]) := by
  have hInv := hSI.inv
  have hsidsri : sid ∈ keys st.sri := hInv.sToR sid (mem_keys_of_mem hmem)
  rw [sweepStep] at hstep
  dsimp only at hstep
  rw [hopid] at hstep
  split at hstep
  · cases hstep
  · next runnings hsri =>
    have hCI0 : CInv sid ⟨st.assocs, runnings, st.fresh⟩ [] := inv_cinv hInv hsri
    split at hstep
    · cases hstep
    · next c1 pk1 heq =>
      have main : ∀ (c2 : SessCtx) (pk2 : List Tracking), CInv sid c2 pk2 →
          Foreign sid st.assocs c2.assocs → st.fresh ≤ c2.fresh →
          Inv ⟨sessions, ainsert st.sri sid c2.runnings, c2.assocs, c2.fresh⟩ :=
        fun c2 pk2 hCI2 hF2 hfr2 => inv_writeback_update hInv hsri hCI2 hF2 hfr2
      split at hstep
      · next outcome hres =>
        split at hstep
        · -- done: drain and schedule removal
          simp only [Option.some.injEq] at hstep
          have hown1 : progOwn sid connId op.spec.check.ops
              ⟨st.assocs, runnings, st.fresh⟩ [] = true := by
            rw [← hstep] at hown
            simp only at hown
            exact ((Bool.and_eq_true _ _).mp hown).2
          obtain ⟨c'', pk'', hrun'', hCI'', hfr'', hF''⟩ :=
            runProg_cinv op.spec.check.ops ⟨st.assocs, runnings, st.fresh⟩ [] hCI0 hown1
          rw [heq] at hrun''
          simp only [Option.some.injEq, Prod.mk.injEq] at hrun''
          obtain ⟨hc, hpk⟩ := hrun''
          subst hc
          subst hpk
          have hCIt := (cinv_terminate hCI'').1
          have hFt : Foreign sid st.assocs (SessionImpl.terminateSession c1).assocs :=
            hF''.trans (cinv_terminate hCI'').2
          have hInv' : Inv ⟨sessions, ainsert st.sri sid [],
              terminate c1.assocs c1.runnings, c1.fresh⟩ :=
            main (SessionImpl.terminateSession c1) _ hCIt hFt hfr''
          rw [← hstep]
          refine ⟨⟨hInv', ?_, ?_⟩, hfr'', ?_, Or.inr rfl⟩
          · intro sid' hsid'
            rcases List.mem_append.mp hsid' with hsid' | hsid'
            · obtain ⟨hold1, hold2⟩ := hSI.delsOk sid' hsid'
              have hne : sid' ≠ sid := fun hh => hnd (hh ▸ hsid')
              constructor
              · rw [alookup_ainsert, if_neg hne]
                exact hold1
              · intro id req hreq hsess
                rw [alookup_terminate] at hreq
                by_cases hrun : id ∈ c1.runnings
                · rw [if_pos hrun] at hreq
                  cases hreq
                · rw [if_neg hrun] at hreq
                  have hne2 : req.session ≠ sid := by
                    rw [hsess]
                    exact hne
                  exact hold2 id req ((hF'' id req hne2).mp hreq) hsess
            · rcases List.mem_singleton.mp hsid' with rfl
              constructor
              · rw [alookup_ainsert, if_pos rfl]
              · intro id req hreq hsess
                rw [alookup_terminate] at hreq
                by_cases hrun : id ∈ c1.runnings
                · rw [if_pos hrun] at hreq
                  cases hreq
                · rw [if_neg hrun] at hreq
                  exact hrun ((hCI''.iffOwn id).mpr ⟨req, hreq, hsess⟩)
          · rw [List.nodup_append]
            exact ⟨hSI.delsNodup, List.nodup_singleton _, by simpa using hnd⟩
          · intro x hx
            rcases (keys_ainsert_mem _ _ _ _).mp hx with hx | hx
            · exact hx
            · subst hx
              exact hsidsri
        · -- not done: write the running-list back, stay active
          simp only [Option.some.injEq] at hstep
          have hown1 : progOwn sid connId op.spec.check.ops
              ⟨st.assocs, runnings, st.fresh⟩ [] = true := by
            rw [← hstep] at hown
            simp only at hown
            exact ((Bool.and_eq_true _ _).mp hown).2
          obtain ⟨c'', pk'', hrun'', hCI'', hfr'', hF''⟩ :=
            runProg_cinv op.spec.check.ops ⟨st.assocs, runnings, st.fresh⟩ [] hCI0 hown1
          rw [heq] at hrun''
          simp only [Option.some.injEq, Prod.mk.injEq] at hrun''
          obtain ⟨hc, hpk⟩ := hrun''
          subst hc
          subst hpk
          have hInv' : Inv ⟨sessions, ainsert st.sri sid c1.runnings,
              c1.assocs, c1.fresh⟩ :=
            main c1 _ hCI'' hF'' hfr''
          rw [← hstep]
          refine ⟨⟨hInv', ?_, hSI.delsNodup⟩, hfr'', ?_, Or.inl rfl⟩
          · intro sid' hsid'
            obtain ⟨hold1, hold2⟩ := hSI.delsOk sid' hsid'
            have hne : sid' ≠ sid := fun hh => hnd (hh ▸ hsid')
            constructor
            · rw [alookup_ainsert, if_neg hne]
              exact hold1
            · intro id req hreq hsess
              have hne2 : req.session ≠ sid := by
                rw [hsess]
                exact hne
              exact hold2 id req ((hF'' id req hne2).mp hreq) hsess
          · intro x hx
            rcases (keys_ainsert_mem _ _ _ _).mp hx with hx | hx
            · exact hx
            · subst hx
              exact hsidsri
      · next e hres =>
        -- check call failed: drain and schedule removal
        simp only [Option.some.injEq] at hstep
        have hown1 : progOwn sid connId op.spec.check.ops
            ⟨st.assocs, runnings, st.fresh⟩ [] = true := by
          rw [← hstep] at hown
          simp only at hown
          exact ((Bool.and_eq_true _ _).mp hown).2
        obtain ⟨c'', pk'', hrun'', hCI'', hfr'', hF''⟩ :=
          runProg_cinv op.spec.check.ops ⟨st.assocs, runnings, st.fresh⟩ [] hCI0 hown1
        rw [heq] at hrun''
        simp only [Option.some.injEq, Prod.mk.injEq] at hrun''
        obtain ⟨hc, hpk⟩ := hrun''
        subst hc
        subst hpk
        have hCIt := (cinv_terminate hCI'').1
        have hFt : Foreign sid st.assocs (SessionImpl.terminateSession c1).assocs :=
          hF''.trans (cinv_terminate hCI'').2
        have hInv' : Inv ⟨sessions, ainsert st.sri sid [],
            terminate c1.assocs c1.runnings, c1.fresh⟩ :=
          main (SessionImpl.terminateSession c1) _ hCIt hFt hfr''
        rw [← hstep]
        refine ⟨⟨hInv', ?_, ?_⟩, hfr'', ?_, Or.inr rfl⟩
        · intro sid' hsid'
          rcases List.mem_append.mp hsid' with hsid' | hsid'
          · obtain ⟨hold1, hold2⟩ := hSI.delsOk sid' hsid'
            have hne : sid' ≠ sid := fun hh => hnd (hh ▸ hsid')
            constructor
            · rw [alookup_ainsert, if_neg hne]
              exact hold1
            · intro id req hreq hsess
              rw [alookup_terminate] at hreq
              by_cases hrun : id ∈ c1.runnings
              · rw [if_pos hrun] at hreq
                cases hreq
              · rw [if_neg hrun] at hreq
                have hne2 : req.session ≠ sid := by
                  rw [hsess]
                  exact hne
                exact hold2 id req ((hF'' id req hne2).mp hreq) hsess
          · rcases List.mem_singleton.mp hsid' with rfl
            constructor
            · rw [alookup_ainsert, if_pos rfl]
            · intro id req hreq hsess
              rw [alookup_terminate] at hreq
              by_cases hrun : id ∈ c1.runnings
              · rw [if_pos hrun] at hreq
                cases hreq
              · rw [if_neg hrun] at hreq
                exact hrun ((hCI''.iffOwn id).mpr ⟨req, hreq, hsess⟩)
        · rw [List.nodup_append]
          exact ⟨hSI.delsNodup, List.nodup_singleton _, by simpa using hnd⟩
        · intro x hx
          rcases (keys_ainsert_mem _ _ _ _).mp hx with hx | hx
          · exact hx
          · subst hx
            exact hsidsri

theorem sweepGo_inv {connId : Nat} {sessions : List (Nat × Op)} :
    ∀ (l : List (Nat × Op)) (st stF : SweepSt),
    SweepInv sessions st →
    (∀ p ∈ l, p ∈ sessions) →
    (∀ p ∈ l, (Prod.snd p : Op).id = p.1) →
    (keys l).Nodup →
    (∀ p ∈ l, (p : Nat × Op).1 ∉ st.dels) →
    sweepGo connId l st = some stF → stF.own = true →
    SweepInv sessions stF ∧ st.fresh ≤ stF.fresh ∧
      (∀ x ∈ keys stF.sri, x ∈ keys st.sri) ∧
      (∀ sid ∈ stF.dels, sid ∈ st.dels ∨ sid ∈ keys l) := by
  intro l
  induction l with
  | nil =>
    intro st stF hSI _ _ _ _ h hown
    rw [sweepGo] at h
    injection h with h
    subst h
    exact ⟨hSI, Nat.le_refl _, fun x hx => hx, fun sid hsid => Or.inl hsid⟩
  | cons e rest ih =>
    intro st stF hSI hment hids hknd hdels h hown
    obtain ⟨sid, op⟩ := e
    rw [sweepGo] at h
    split at h
    · next st' heq =>
      have hstown : st'.own = true := sweepGo_own h hown
      obtain ⟨hSI', hfr', hkeys', hdels'⟩ :=
        sweepStep_inv hSI (hment (sid, op) (List.mem_cons_self _ _))
          (hids (sid, op) (List.mem_cons_self _ _)) (hdels (sid, op) (List.mem_cons_self _ _))
          heq hstown
      rw [keys_cons, List.nodup_cons] at hknd
      have hrest : ∀ p ∈ rest, (p : Nat × Op).1 ∉ st'.dels := by
        intro p hp hmem
        rcases hdels' with hd | hd
        · rw [hd] at hmem
          exact hdels p (List.mem_cons_of_mem _ hp) hmem
        · rw [hd] at hmem
          rcases List.mem_append.mp hmem with hmem | hmem
          · exact hdels p (List.mem_cons_of_mem _ hp) hmem
          · rcases List.mem_singleton.mp hmem with hmem
            exact hknd.1 (hmem ▸ mem_keys_of_mem hp)
      obtain ⟨hSIF, hfrF, hkeysF, hdelsF⟩ :=
        ih st' stF hSI' (fun p hp => hment p (List.mem_cons_of_mem _ hp))
          (fun p hp => hids p (List.mem_cons_of_mem _ hp)) hknd.2 hrest h hown
      refine ⟨hSIF, Nat.le_trans hfr' hfrF, fun x hx => hkeys' x (hkeysF x hx), ?_⟩
      intro sid' hsid'
      rcases hdelsF sid' hsid' with hd | hd
      · rcases hdels' with he | he
        · rw [he] at hd
          exact Or.inl hd
        · rw [he] at hd
          rcases List.mem_append.mp hd with hd | hd
          · exact Or.inl hd
          · rcases List.mem_singleton.mp hd with rfl
            exact Or.inr (by simp [keys])
      · exact Or.inr (by rw [keys_cons]; exact List.mem_cons_of_mem _ hd)
    · cases h

/-- Removing one operation whose running-list is drained and which owns no
record preserves the table invariant. -/
theorem inv_remove_empty {rq : Requests} (hInv : Inv rq) {sid : Nat}
    (hsri : alookup rq.session_request_ids sid = some [])
    (_hnorec : ∀ id req, alookup rq.assocs id = some req → req.session ≠ sid) :
    Inv ⟨aremove rq.sessions sid, aremove rq.session_request_ids sid,
      rq.assocs, rq.fresh⟩ := by
  have hCI : CInv sid ⟨rq.assocs, [], rq.fresh⟩ [] := inv_cinv hInv hsri
  exact inv_writeback_remove hInv hsri hCI Foreign.rfl (Nat.le_refl _) rfl

theorem removeSessions_inv :
    ∀ (dels : List Nat) (sessions : List (Nat × Op)) (sri : List (Nat × List Nat))
      (assocs : List (Nat × Request)) (fresh : Nat),
    Inv ⟨sessions, sri, assocs, fresh⟩ →
    (∀ sid ∈ dels, alookup sri sid = some [] ∧
      (∀ id req, alookup assocs id = some req → req.session ≠ sid)) →
    dels.Nodup →
    Inv ⟨(removeSessions sessions sri dels).1, (removeSessions sessions sri dels).2,
      assocs, fresh⟩ ∧
    (∀ x ∈ keys (removeSessions sessions sri dels).2, x ∈ keys sri) := by
  intro dels
  induction dels with
  | nil =>
    intro sessions sri assocs fresh hInv _ _
    exact ⟨hInv, fun x hx => hx⟩
  | cons sid rest ih =>
    intro sessions sri assocs fresh hInv hok hnd
    rw [List.nodup_cons] at hnd
    have h1 := hok sid (List.mem_cons_self _ _)
    have hInv' : Inv ⟨aremove sessions sid, aremove sri sid, assocs, fresh⟩ :=
      inv_remove_empty hInv h1.1 h1.2
    have hok' : ∀ sid' ∈ rest, alookup (aremove sri sid) sid' = some [] ∧
        (∀ id req, alookup assocs id = some req → req.session ≠ sid') := by
      intro sid' hsid'
      have hne : sid' ≠ sid := fun hh => hnd.1 (hh ▸ hsid')
      obtain ⟨ha, hb⟩ := hok sid' (List.mem_cons_of_mem _ hsid')
      exact ⟨by rw [alookup_aremove, if_neg hne]; exact ha, hb⟩
    obtain ⟨hI, hkeys⟩ := ih (aremove sessions sid) (aremove sri sid) assocs fresh
      hInv' hok' hnd.2
    refine ⟨hI, ?_⟩
    intro x hx
    exact ((keys_aremove_mem _ _ _).mp (hkeys x hx)).1

/-- Any owns-disciplined sweep preserves the table invariant and adds no
running-list key. -/
theorem check_inv {rq : Requests} {conn : Connection} {rq' : Requests}
    {evs : List Event}
    (hInv : Inv rq)
    (h : Requests.check_and_retry conn rq = some (rq', evs, true)) :
    Inv rq' ∧ rq.fresh ≤ rq'.fresh ∧
      (∀ x ∈ keys rq'.session_request_ids, x ∈ keys rq.session_request_ids) := by
  rw [Requests.check_and_retry] at h
  split at h
  · cases h
  · next st hgo =>
    simp only [Option.some.injEq, Prod.mk.injEq] at h
    obtain ⟨hrq', -, hown⟩ := h
    have hSI0 : SweepInv rq.sessions
        ⟨rq.session_request_ids, rq.assocs, rq.fresh, [], [], true⟩ := by
      refine ⟨?_, ?_, List.nodup_nil⟩
      · exact hInv
      · intro sid hsid
        cases hsid
    obtain ⟨hSIF, hfrF, hkeysF, hdelsF⟩ :=
      sweepGo_inv rq.sessions _ st hSI0 (fun p hp => hp) hInv.sessId hInv.nodupS
        (fun p _ hmem => by cases hmem) hgo hown
    have hok : ∀ sid ∈ st.dels, alookup st.sri sid = some [] ∧
        (∀ id req, alookup st.assocs id = some req → req.session ≠ sid) := hSIF.delsOk
    obtain ⟨hI, hkeys⟩ := removeSessions_inv st.dels rq.sessions st.sri st.assocs st.fresh
      hSIF.inv hok hSIF.delsNodup
    rw [← hrq']
    exact ⟨hI, hfrF, fun x hx => hkeysF x (hkeys x hx)⟩

/-! ### Registry-level invariant preservation -/

theorem inv_fresh_mono {rq : Requests} (hInv : Inv rq) {f : Nat} (hf : rq.fresh ≤ f) :
    Inv { rq with fresh := f } := by
  refine ⟨hInv.nodupA, hInv.nodupS, hInv.nodupR, hInv.sToR, hInv.rToS, hInv.listNodup,
    hInv.memTo, hInv.memFrom, hInv.trackId, hInv.sessId, ?_, ?_, ?_⟩
  · intro p hp
    exact Nat.lt_of_lt_of_le (hInv.freshA p hp) hf
  · intro p hp id hid
    exact Nat.lt_of_lt_of_le (hInv.freshRun p hp id hid) hf
  · intro x hx
    exact Nat.lt_of_lt_of_le (hInv.freshR x hx) hf

theorem registerAll_inv {conn : Connection} :
    ∀ (ops : List Op) (rq : Requests) {rq' : Requests} {evs : List Event},
    Inv rq →
    (∀ op ∈ ops, (op : Op).id < rq.fresh) →
    (∀ op ∈ ops, (op : Op).id ∉ keys rq.session_request_ids) →
    (ops.map Op.id).Nodup →
    registerAll conn ops rq = some (rq', evs, true) →
    Inv rq' ∧ rq.fresh ≤ rq'.fresh ∧
      (∀ x ∈ keys rq'.session_request_ids,
        x ∈ keys rq.session_request_ids ∨ x ∈ ops.map Op.id) := by
  intro ops
  induction ops with
  | nil =>
    intro rq rq' evs hInv _ _ _ h
    rw [registerAll] at h
    simp only [Option.some.injEq, Prod.mk.injEq] at h
    rw [← h.1]
    exact ⟨hInv, Nat.le_refl _, fun x hx => Or.inl hx⟩
  | cons op rest ih =>
    intro rq rq' evs hInv hfr hdisj hnd h
    rw [registerAll] at h
    split at h
    · cases h
    · next rq1 e1 b1 heq1 =>
      split at h
      · cases h
      · next rq2 e2 b2 heq2 =>
        simp only [Option.some.injEq, Prod.mk.injEq] at h
        obtain ⟨hrq2, -, hb⟩ := h
        obtain ⟨hb1, hb2⟩ := (Bool.and_eq_true _ _).mp hb
        subst hb1
        subst hb2
        obtain ⟨hI1, hf1, hk1⟩ := register_inv hInv
          (hdisj op (List.mem_cons_self _ _)) (hfr op (List.mem_cons_self _ _)) heq1
        rw [List.map_cons, List.nodup_cons] at hnd
        have hfr' : ∀ op' ∈ rest, (op' : Op).id < rq1.fresh :=
          fun op' hop' => Nat.lt_of_lt_of_le (hfr op' (List.mem_cons_of_mem _ hop')) hf1
        have hdisj' : ∀ op' ∈ rest, (op' : Op).id ∉ keys rq1.session_request_ids := by
          intro op' hop' hmem
          rcases hk1 _ hmem with hm | hm
          · exact hdisj op' (List.mem_cons_of_mem _ hop') hm
          · exact hnd.1 (hm ▸ List.mem_map_of_mem Op.id hop')
        obtain ⟨hI2, hf2, hk2⟩ := ih rq1 hI1 hfr' hdisj' hnd.2 heq2
        rw [← hrq2]
        refine ⟨hI2, Nat.le_trans hf1 hf2, ?_⟩
        intro x hx
        rcases hk2 x hx with hm | hm
        · rcases hk1 x hm with hm' | hm'
          · exact Or.inl hm'
          · exact Or.inr (by rw [List.map_cons]; exact hm' ▸ List.mem_cons_self _ _)
        · exact Or.inr (by rw [List.map_cons]; exact List.mem_cons_of_mem _ hm)

/-- One public call preserves the registry invariant. -/
theorem runCall_rinv {r : Registry} {c : Call} {r' : Registry} {evs : List Event}
    (hR : RInv r) (h : runCall c r = some (r', evs, true)) : RInv r' := by
  cases c with
  | register spec oconn =>
    have hfreshkey : r.requests.fresh ∉ keys r.requests.session_request_ids := by
      intro hmem
      exact Nat.lt_irrefl _ (hR.inv.freshR _ hmem)
    cases oconn with
    | none =>
      rw [runCall, Registry.register] at h
      simp only [Option.some.injEq, Prod.mk.injEq] at h
      obtain ⟨hr', -, -⟩ := h
      rw [← hr']
      refine ⟨inv_fresh_mono hR.inv (Nat.le_succ _), ?_, ?_, ?_⟩
      · intro op hop
        rcases List.mem_append.mp hop with hop | hop
        · exact Nat.lt_succ_of_lt (hR.awaitFresh op hop)
        · rcases List.mem_singleton.mp hop with rfl
          exact Nat.lt_succ_self _
      · rw [List.map_append, List.nodup_append]
        refine ⟨hR.awaitNodup, List.nodup_singleton _, ?_⟩
        intro x hx hx2
        rcases List.mem_map.mp hx with ⟨op, hop, rfl⟩
        simp only [List.map_cons, List.map_nil, List.mem_singleton] at hx2
        exact Nat.lt_irrefl _ (hx2 ▸ hR.awaitFresh op hop)
      · intro op hop
        rcases List.mem_append.mp hop with hop | hop
        · exact hR.awaitDisj op hop
        · rcases List.mem_singleton.mp hop with rfl
          exact hfreshkey
    | some conn =>
      rw [runCall, Registry.register] at h
      split at h
      · cases h
      · next rq1 evs1 own1 heq =>
        simp only [Option.some.injEq, Prod.mk.injEq] at h
        obtain ⟨hr', -, hown⟩ := h
        subst hown
        obtain ⟨hI1, hf1, hk1⟩ := register_inv (inv_fresh_mono hR.inv (Nat.le_succ _))
          hfreshkey (Nat.lt_succ_self _) heq
        rw [← hr']
        refine ⟨hI1, ?_, hR.awaitNodup, ?_⟩
        · intro op hop
          exact Nat.lt_of_lt_of_le (Nat.lt_succ_of_lt (hR.awaitFresh op hop)) hf1
        · intro op hop hmem
          rcases hk1 _ hmem with hm | hm
          · exact hR.awaitDisj op hop hm
          · exact Nat.lt_irrefl _ (hm ▸ hR.awaitFresh op hop)
  | handle pkg conn =>
    rw [runCall, Registry.handle] at h
    split at h
    · cases h
    · next rq1 evs1 own1 heq =>
      simp only [Option.some.injEq, Prod.mk.injEq] at h
      obtain ⟨hr', -, hown⟩ := h
      subst hown
      obtain ⟨hI1, hf1, hk1⟩ := handle_inv hR.inv heq
      rw [← hr']
      refine ⟨hI1, ?_, hR.awaitNodup, ?_⟩
      · intro op hop
        exact Nat.lt_of_lt_of_le (hR.awaitFresh op hop) hf1
      · intro op hop hmem
        exact hR.awaitDisj op hop (hk1 _ hmem)
  | checkRetry conn =>
    rw [runCall, Registry.check_and_retry] at h
    split at h
    · cases h
    · next rq1 e1 b1 heq1 =>
      split at h
      · cases h
      · next rq2 e2 b2 heq2 =>
        simp only [Option.some.injEq, Prod.mk.injEq] at h
        obtain ⟨hr', -, hb⟩ := h
        obtain ⟨hb1, hb2⟩ := (Bool.and_eq_true _ _).mp hb
        subst hb1
        subst hb2
        obtain ⟨hI1, hf1, hk1⟩ := check_inv hR.inv heq1
        have hfr' : ∀ op ∈ r.awaiting.reverse, (op : Op).id < rq1.fresh := by
          intro op hop
          exact Nat.lt_of_lt_of_le
            (hR.awaitFresh op (List.mem_reverse.mp hop)) hf1
        have hdisj' : ∀ op ∈ r.awaiting.reverse,
            (op : Op).id ∉ keys rq1.session_request_ids := by
          intro op hop hmem
          exact hR.awaitDisj op (List.mem_reverse.mp hop) (hk1 _ hmem)
        have hnd' : (r.awaiting.reverse.map Op.id).Nodup := by
          rw [List.map_reverse]
          exact List.nodup_reverse.mpr hR.awaitNodup
        obtain ⟨hI2, hf2, hk2⟩ := registerAll_inv _ _ hI1 hfr' hdisj' hnd' heq2
        rw [← hr']
        exact ⟨hI2, fun op hop => absurd hop (List.not_mem_nil op),
          List.nodup_nil, fun op hop => absurd hop (List.not_mem_nil op)⟩
  | abortCall =>
    rw [runCall] at h
    simp only [Option.some.injEq, Prod.mk.injEq] at h
    obtain ⟨hr', -, -⟩ := h
    rw [← hr']
    exact hR

theorem rinv_new : RInv Registry.new := by
  refine ⟨⟨List.nodup_nil, List.nodup_nil, List.nodup_nil,
    ?_, ?_, ?_, ?_, ?_, ?_, ?_, ?_, ?_, ?_⟩, ?_, List.nodup_nil, ?_⟩ <;>
    (intro p hp; cases hp)

/-- Reachability: every owns-disciplined call sequence from a fresh
registry preserves the registry invariant. -/
theorem runCalls_rinv : ∀ (calls : List Call) (r0 r : Registry) (evs : List Event),
    RInv r0 → runCalls calls r0 = some (r, evs, true) → RInv r := by
  intro calls
  induction calls with
  | nil =>
    intro r0 r evs hR h
    rw [runCalls] at h
    simp only [Option.some.injEq, Prod.mk.injEq] at h
    rw [← h.1]
    exact hR
  | cons c rest ih =>
    intro r0 r evs hR h
    rw [runCalls] at h
    split at h
    · cases h
    · next r1 e1 b1 heq1 =>
      split at h
      · cases h
      · next r2 e2 b2 heq2 =>
        simp only [Option.some.injEq, Prod.mk.injEq] at h
        obtain ⟨hr2, -, hb⟩ := h
        obtain ⟨hb1, hb2⟩ := (Bool.and_eq_true _ _).mp hb
        subst hb1
        subst hb2
        exact hr2 ▸ ih r1 r2 e2 (runCall_rinv hR heq1) heq2

/-! ### Claim C1 -/

/-- The number of reverse-index records carrying request id `id` and owned
by operation `sid`. -/
def ownedCount (assocs : List (Nat × Request)) (id sid : Nat) : Nat :=
  (assocs.filter (fun p => p.1 == id && (Prod.snd p).session == sid)).length

theorem ownedCount_eq_one_iff {assocs : List (Nat × Request)}
    (hn : (keys assocs).Nodup) (id sid : Nat) :
    ownedCount assocs id sid = 1 ↔
      ∃ req, alookup assocs id = some req ∧ req.session = sid := by
  rw [ownedCount]
  have hchar : ∀ p ∈ assocs.filter (fun p => p.1 == id && (Prod.snd p).session == sid),
      p ∈ assocs ∧ p.1 = id ∧ (Prod.snd p).session = sid := by
    intro p hp
    have h1 := List.of_mem_filter hp
    rw [Bool.and_eq_true, beq_iff_eq, beq_iff_eq] at h1
    exact ⟨List.mem_of_mem_filter hp, h1.1, h1.2⟩
  have hle : (assocs.filter (fun p => p.1 == id && (Prod.snd p).session == sid)).length ≤ 1 := by
    cases hF : assocs.filter (fun p => p.1 == id && (Prod.snd p).session == sid) with
    | nil => simp
    | cons a t =>
      cases t with
      | nil => simp
      | cons b t2 =>
        exfalso
        have hsubl : (keys (a :: b :: t2)).Sublist (keys assocs) := by
          rw [← hF]
          exact List.Sublist.map Prod.fst (List.filter_sublist assocs)
        have hnd2 : (keys (a :: b :: t2)).Nodup := hn.sublist hsubl
        have ha : a.1 = id := (hchar a (hF ▸ List.mem_cons_self _ _)).2.1
        have hb : b.1 = id :=
          (hchar b (hF ▸ List.mem_cons_of_mem _ (List.mem_cons_self _ _))).2.1
        rw [keys_cons, keys_cons, List.nodup_cons] at hnd2
        exact hnd2.1 (by rw [ha, ← hb]; exact List.mem_cons_self _ _)
  constructor
  · intro hlen
    obtain ⟨p, hp⟩ := List.length_eq_one.mp hlen
    have hmem : p ∈ assocs.filter (fun p => p.1 == id && (Prod.snd p).session == sid) := by
      rw [hp]
      exact List.mem_cons_self _ _
    obtain ⟨hpa, hpid, hpsess⟩ := hchar p hmem
    refine ⟨p.2, ?_, hpsess⟩
    rw [← hpid]
    exact mem_alookup hn (by obtain ⟨x, y⟩ := p; exact hpa)
  · rintro ⟨req, hreq, hsess⟩
    have hmem : (id, req) ∈ assocs.filter
        (fun p => p.1 == id && (Prod.snd p).session == sid) := by
      rw [List.mem_filter]
      refine ⟨alookup_mem hreq, ?_⟩
      rw [Bool.and_eq_true, beq_iff_eq, beq_iff_eq]
      exact ⟨rfl, hsess⟩
    have hpos : 0 < (assocs.filter
        (fun p => p.1 == id && (Prod.snd p).session == sid)).length :=
      List.length_pos.mpr (fun hnil => by rw [hnil] at hmem; cases hmem)
    omega

/-- C1: after every sequence of public calls in which each operation
callback only manipulates request ids it owns (`runCalls` returning the
owns-discipline flag `true`), every operation id in the active operations
map has an entry in the running-list map, and an id is on an operation's
running-list iff the reverse index holds exactly one `Request` record for
that id owned by that operation. -/
theorem c1_lockstep_invariant (calls : List Call) (r : Registry) (evs : List Event)
    (h : runCalls calls Registry.new = some (r, evs, true)) :
    (∀ sid ∈ keys r.requests.sessions,
      ∃ l, alookup r.requests.session_request_ids sid = some l) ∧
    (∀ sid l, alookup r.requests.session_request_ids sid = some l →
      ∀ id, id ∈ l ↔ ownedCount r.requests.assocs id sid = 1) := by
  have hR := runCalls_rinv calls Registry.new r evs rinv_new h
  constructor
  · intro sid hsid
    exact (alookup_isSome_iff _ _).mpr (hR.inv.sToR sid hsid)
  · intro sid l hsri id
    rw [ownedCount_eq_one_iff hR.inv.nodupA]
    exact inv_memIff hR.inv hsri id

def wconn : Connection := ⟨7⟩

def wspec1 : OpSpec :=
  { send := ⟨[SOp.newReq (Cmd.other 1)], Except.ok ⟨false, []⟩⟩,
    receive := fun _ => ⟨[], Except.ok ⟨false, []⟩⟩,
    retry := fun i => ⟨[SOp.popReq i, SOp.reuseReq 0], Except.ok ⟨false, []⟩⟩,
    check := ⟨[], Except.ok ⟨false, []⟩⟩ }

def wcalls1 : List Call :=
  [Call.register wspec1 (some wconn), Call.handle ⟨1, Cmd.other 5, "x", none⟩ wconn]

theorem c1_lockstep_invariant_witness :
    ∃ r evs, runCalls wcalls1 Registry.new = some (r, evs, true) ∧
      ((∀ sid ∈ keys r.requests.sessions,
          ∃ l, alookup r.requests.session_request_ids sid = some l) ∧
       (∀ sid l, alookup r.requests.session_request_ids sid = some l →
          ∀ id, id ∈ l ↔ ownedCount r.requests.assocs id sid = 1)) :=
  ⟨_, _, rfl, c1_lockstep_invariant wcalls1 _ _ rfl⟩

/-! ### Claim C2 -/

/-- A reverse index holding one record owned by operation 2, viewed through
a session whose own running-list is empty (operation 1's view). -/
def c2ctx : SessCtx := ⟨[(5, ⟨2, ⟨5, Cmd.other 0, 3⟩⟩)], [], 10⟩

/-- C2 counterexample: request id 5 is not among the viewing session's own
outstanding ids (its running-list is empty) but is owned by the different
active operation 2.  `pop` does not fail with the not-found condition: it
removes the record from the shared reverse index and then panics (the
`unwrap` on `position`), and `using` does not fail either — it succeeds and
hands out the other operation's tracker. -/
theorem c2_counterexample :
    SessionImpl.pop 5 c2ctx =
      (SessionImpl.PopResult.panicked, ⟨[], [], 10⟩) ∧
    SessionImpl.usingTracker 5 c2ctx = some ⟨5, Cmd.other 0, 3⟩ :=
  ⟨rfl, rfl⟩

/-- C2 amended: for every request id that is absent from the reverse index
altogether, `pop` and `using` fail with the not-found condition, without
panicking and leaving the running-list and the reverse index unchanged.
(An id owned by a *different* operation is not protected: `pop` removes it
and panics, `using` succeeds on it — see the counterexample.) -/
theorem c2_amended_not_found (id : Nat) (c : SessCtx)
    (h : alookup c.assocs id = none) :
    SessionImpl.pop id c = (SessionImpl.PopResult.notFound, c) ∧
    SessionImpl.usingTracker id c = none := by
  constructor
  · rw [SessionImpl.pop, h]
  · rw [SessionImpl.usingTracker, h]
    rfl

theorem c2_amended_not_found_witness :
    alookup c2ctx.assocs 9 = none ∧
      (SessionImpl.pop 9 c2ctx = (SessionImpl.PopResult.notFound, c2ctx) ∧
       SessionImpl.usingTracker 9 c2ctx = none) :=
  ⟨rfl, c2_amended_not_found 9 c2ctx rfl⟩

/-! ### Claim C3 -/

/-- A reverse index holding a record of operation 1 and a record of
operation 2; the session view belongs to operation 1 (running-list `[5]`). -/
def c3ctx : SessCtx :=
  ⟨[(5, ⟨1, ⟨5, Cmd.other 0, 3⟩⟩), (6, ⟨2, ⟨6, Cmd.other 1, 3⟩⟩)], [5], 10⟩

/-- C3 counterexample: `requests()` on operation 1's session view returns
the tracker of the record owned by operation 2 (id 6) as well — a Tracking
belonging to another operation is included. -/
theorem c3_counterexample :
    alookup c3ctx.assocs 6 = some ⟨2, ⟨6, Cmd.other 1, 3⟩⟩ ∧
    (2 : Nat) ≠ 1 ∧
    SessionImpl.requests c3ctx = [⟨5, Cmd.other 0, 3⟩, ⟨6, Cmd.other 1, 3⟩] :=
  ⟨rfl, by decide, rfl⟩

/-- C3 amended: `requests()` returns read-only views of every Tracking of
the whole reverse index, regardless of which operation owns it. -/
theorem c3_amended_requests_all (c : SessCtx) (t : Tracking) :
    t ∈ SessionImpl.requests c ↔ ∃ p ∈ c.assocs, (Prod.snd p : Request).tracker = t := by
  rw [SessionImpl.requests]
  constructor
  · intro h
    rcases List.mem_map.mp h with ⟨p, hp, rfl⟩
    exact ⟨p, hp, rfl⟩
  · rintro ⟨p, hp, rfl⟩
    exact List.mem_map_of_mem _ hp

/-! ### Claim C7 -/

/-- C7: a package whose correlation id is unknown to the reverse index
leaves the table exactly unchanged, invokes no operation callback and
signals no failure (the returned event list is empty), and does not
panic. -/
theorem c7_unknown_id_frame (rq : Requests) (conn : Connection) (pkg : Pkg)
    (h : alookup rq.assocs pkg.correlation = none) :
    Requests.handle_pkg conn pkg rq = some (rq, [], true) := by
  rw [Requests.handle_pkg, h]

def wpkg7 : Pkg := ⟨42, Cmd.other 5, "x", none⟩

theorem c7_unknown_id_frame_witness :
    alookup Requests.new.assocs wpkg7.correlation = none ∧
      Requests.handle_pkg wconn wpkg7 Requests.new = some (Requests.new, [], true) :=
  ⟨rfl, c7_unknown_id_frame Requests.new wconn wpkg7 rfl⟩

/-! ### Claim C8 -/

/-- C8: `Registry::abort` leaves the registry state (active operations map,
running-list map, reverse index, awaiting queue) exactly unchanged, and
signals `failed(Aborted)` on every active operation and on every awaiting
operation. -/
theorem c8_abort_signals_all (r : Registry) :
    (Registry.abortReg r).1 = r ∧
    (∀ p ∈ r.requests.sessions,
      Event.failed (Prod.snd p : Op).id OperationError.aborted ∈ (Registry.abortReg r).2) ∧
    (∀ op ∈ r.awaiting,
      Event.failed (op : Op).id OperationError.aborted ∈ (Registry.abortReg r).2) := by
  refine ⟨rfl, ?_, ?_⟩
  · intro p hp
    exact List.mem_append.mpr (Or.inl
      (List.mem_map_of_mem (fun q => Event.failed (Prod.snd q : Op).id OperationError.aborted) hp))
  · intro op hop
    exact List.mem_append.mpr (Or.inr
      (List.mem_map_of_mem (fun q => Event.failed (q : Op).id OperationError.aborted) hop))

def wop8a : Op := ⟨0, wspec1⟩

def wop8b : Op := ⟨3, wspec1⟩

def wr8 : Registry := ⟨⟨[(0, wop8a)], [(0, [1])], [], 2⟩, [wop8b]⟩

theorem c8_abort_signals_all_witness :
    (Registry.abortReg wr8).1 = wr8 ∧
    Event.failed 0 OperationError.aborted ∈ (Registry.abortReg wr8).2 ∧
    Event.failed 3 OperationError.aborted ∈ (Registry.abortReg wr8).2 :=
  ⟨(c8_abort_signals_all wr8).1,
   (c8_abort_signals_all wr8).2.1 (0, wop8a) (List.mem_cons_self _ _),
   (c8_abort_signals_all wr8).2.2 wop8b (List.mem_cons_self _ _)⟩

/-! ### Claim C10 -/

theorem aremove_append {α : Type} (l₁ l₂ : List (Nat × α)) (k : Nat) :
    aremove (l₁ ++ l₂) k = aremove l₁ k ++ aremove l₂ k := by
  induction l₁ with
  | nil => simp [aremove]
  | cons p t ih =>
    obtain ⟨k', w⟩ := p
    by_cases hk : k' = k <;> simp [aremove, hk, ih]

/-- C10: `new_request(cmd)` followed immediately by `pop` on the returned
id succeeds and returns a Tracking carrying exactly `cmd` and the session's
connection id, and the running-list and the reverse index are restored to
their contents from before the `new_request` call (only the id supply has
advanced).  The two freshness hypotheses are the v4-Uuid uniqueness
assumption. -/
theorem c10_new_request_pop_roundtrip (sid connId : Nat) (cmd : Cmd) (c : SessCtx)
    (h1 : alookup c.assocs c.fresh = none) (h2 : c.fresh ∉ c.runnings) :
    SessionImpl.pop (SessionImpl.new_request sid connId cmd c).1
        (SessionImpl.new_request sid connId cmd c).2 =
      (SessionImpl.PopResult.ok ⟨c.fresh, cmd, connId⟩,
        ⟨c.assocs, c.runnings, c.fresh + 1⟩) := by
  have hkey : c.fresh ∉ keys c.assocs := (alookup_none_iff _ _).mp h1
  have hins : ainsert c.assocs c.fresh (Request.new sid cmd connId c.fresh) =
      c.assocs ++ [(c.fresh, Request.new sid cmd connId c.fresh)] :=
    ainsert_of_not_mem _ hkey
  have hlook : alookup (ainsert c.assocs c.fresh (Request.new sid cmd connId c.fresh))
      c.fresh = some (Request.new sid cmd connId c.fresh) := by
    rw [alookup_ainsert, if_pos rfl]
  have hmem : c.fresh ∈ c.runnings ++ [c.fresh] :=
    List.mem_append.mpr (Or.inr (List.mem_singleton.mpr rfl))
  have hrem : aremove (ainsert c.assocs c.fresh (Request.new sid cmd connId c.fresh))
      c.fresh = c.assocs := by
    rw [hins, aremove_append, aremove_of_not_mem hkey]
    simp [aremove]
  have herase : (c.runnings ++ [c.fresh]).erase c.fresh = c.runnings := by
    rw [List.erase_append_right _ h2]
    simp
  show SessionImpl.pop c.fresh
      ⟨ainsert c.assocs c.fresh (Request.new sid cmd connId c.fresh),
        c.runnings ++ [c.fresh], c.fresh + 1⟩ = _
  simp only [SessionImpl.pop, hlook]
  rw [if_pos hmem, hrem, herase]
  rfl

def c10ctx : SessCtx := ⟨[(5, ⟨2, ⟨5, Cmd.other 0, 3⟩⟩)], [5], 10⟩

theorem c10_new_request_pop_roundtrip_witness :
    alookup c10ctx.assocs c10ctx.fresh = none ∧ c10ctx.fresh ∉ c10ctx.runnings ∧
      SessionImpl.pop (SessionImpl.new_request 2 3 (Cmd.other 4) c10ctx).1
          (SessionImpl.new_request 2 3 (Cmd.other 4) c10ctx).2 =
        (SessionImpl.PopResult.ok ⟨c10ctx.fresh, Cmd.other 4, 3⟩,
          ⟨c10ctx.assocs, c10ctx.runnings, c10ctx.fresh + 1⟩) :=
  ⟨rfl, by decide,
    c10_new_request_pop_roundtrip 2 3 (Cmd.other 4) c10ctx rfl (by decide)⟩

/-! ### Claim C5 -/

/-- C5: a package whose correlation id matches an outstanding request and
whose reply code is not-authenticated makes `handle_pkg` signal
`failed(AuthenticationRequired)` on the owning operation (and nothing
else), drain that operation's running-list (its entry disappears from the
running-list map), remove all of its records from the reverse index, and
remove the operation from the active operations map. -/
theorem c5_not_authenticated (rq : Requests) (conn : Connection) (pkg : Pkg) (req : Request)
    (hInv : Inv rq)
    (hcor : alookup rq.assocs pkg.correlation = some req)
    (hcmd : pkg.cmd = Cmd.notAuthenticated) :
    ∃ rq', Requests.handle_pkg conn pkg rq =
        some (rq', [Event.failed req.session OperationError.authenticationRequired], true) ∧
      alookup rq'.sessions req.session = none ∧
      alookup rq'.session_request_ids req.session = none ∧
      (∀ id r2, alookup rq'.assocs id = some r2 → r2.session ≠ req.session) := by
  obtain ⟨l, hsri, -⟩ := (idInRun_iff _ _ _).mp (hInv.memFrom _ (alookup_mem hcor))
  have hsesskey : req.session ∈ keys rq.sessions :=
    hInv.rToS _ ((alookup_isSome_iff _ _).mp ⟨l, hsri⟩)
  obtain ⟨op, hop⟩ := (alookup_isSome_iff _ _).mpr hsesskey
  refine ⟨⟨aremove rq.sessions req.session, aremove rq.session_request_ids req.session,
    terminate (ainsert (aremove rq.assocs pkg.correlation) pkg.correlation req) l,
    rq.fresh⟩, ?_, ?_, ?_, ?_⟩
  · simp only [Requests.handle_pkg, hcor, hsri, hop, dispatch, hcmd, handleFinish,
      SessionImpl.terminateSession, List.isEmpty_nil, if_true]
  · show alookup (aremove rq.sessions req.session) req.session = none
    rw [alookup_aremove, if_pos rfl]
  · show alookup (aremove rq.session_request_ids req.session) req.session = none
    rw [alookup_aremove, if_pos rfl]
  · intro id r2 h hsess
    have h2 : alookup (terminate
        (ainsert (aremove rq.assocs pkg.correlation) pkg.correlation req) l) id
        = some r2 := h
    rw [alookup_terminate] at h2
    by_cases hmem : id ∈ l
    · rw [if_pos hmem] at h2
      cases h2
    · rw [if_neg hmem] at h2
      rw [alookup_reinsert hcor] at h2
      exact hmem ((inv_memIff hInv hsri id).mpr ⟨r2, h2, hsess⟩)

def wrq5 : Requests := ⟨[(0, wop8a)], [(0, [1])], [(1, ⟨0, ⟨1, Cmd.other 2, 7⟩⟩)], 2⟩

def wpkg5 : Pkg := ⟨1, Cmd.notAuthenticated, "x", none⟩

theorem c5_not_authenticated_witness :
    Inv wrq5 ∧ alookup wrq5.assocs wpkg5.correlation = some ⟨0, ⟨1, Cmd.other 2, 7⟩⟩ ∧
      wpkg5.cmd = Cmd.notAuthenticated ∧
      (∃ rq', Requests.handle_pkg wconn wpkg5 wrq5 =
          some (rq', [Event.failed 0 OperationError.authenticationRequired], true) ∧
        alookup rq'.sessions 0 = none ∧
        alookup rq'.session_request_ids 0 = none ∧
        (∀ id r2, alookup rq'.assocs id = some r2 → r2.session ≠ 0)) :=
  ⟨by constructor <;> decide, rfl, rfl,
    c5_not_authenticated wrq5 wconn wpkg5 ⟨0, ⟨1, Cmd.other 2, 7⟩⟩
      (by constructor <;> decide) rfl rfl⟩

/-! ### Claim C4 -/

/-- From a registry reachable by owns-disciplined calls, registering an
operation whose `send` fails leaves the active operations map and the
running-list map literally unchanged and the reverse index extensionally
unchanged — every request id the failed `send` created is unwound — and
the operation's id never enters the active operations map. -/
theorem c4_failed_send_unwinds (calls : List Call) (r : Registry) (evs : List Event)
    (spec : OpSpec) (conn : Connection) (e : String) (r' : Registry) (evs' : List Event)
    (h : runCalls calls Registry.new = some (r, evs, true))
    (hres : spec.send.result = Except.error e)
    (h2 : runCall (Call.register spec (some conn)) r = some (r', evs', true)) :
    r'.requests.sessions = r.requests.sessions ∧
    r'.requests.session_request_ids = r.requests.session_request_ids ∧
    (∀ id, alookup r'.requests.assocs id = alookup r.requests.assocs id) ∧
    r.requests.fresh ∉ keys r'.requests.sessions := by
  have hR := runCalls_rinv calls Registry.new r evs rinv_new h
  have hnotkey : r.requests.fresh ∉ keys r.requests.session_request_ids := by
    intro hmem
    exact Nat.lt_irrefl _ (hR.inv.freshR _ hmem)
  have hnosess : r.requests.fresh ∉ keys r.requests.sessions := by
    intro hmem
    exact hnotkey (hR.inv.sToR _ hmem)
  have hnorec : ∀ id req, alookup r.requests.assocs id = some req →
      req.session ≠ r.requests.fresh := inv_no_records hR.inv hnotkey
  rw [runCall, Registry.register] at h2
  split at h2
  · cases h2
  · next rq1 evs1 own1 hreg =>
    simp only [Option.some.injEq, Prod.mk.injEq] at h2
    obtain ⟨hr', -, hown⟩ := h2
    subst hown
    rw [Requests.register] at hreg
    dsimp only at hreg
    split at hreg
    · cases hreg
    · next c1 pk1 heq =>
      split at hreg
      · next outcome hres2 =>
        rw [hres] at hres2
        cases hres2
      · simp only [Option.some.injEq, Prod.mk.injEq] at hreg
        obtain ⟨hrq1, -, hown1⟩ := hreg
        have hCI0 : CInv r.requests.fresh
            ⟨r.requests.assocs, [], r.requests.fresh + 1⟩ [] := by
          have hI1 : Inv { r.requests with fresh := r.requests.fresh + 1 } :=
            inv_fresh_mono hR.inv (Nat.le_succ _)
          exact inv_cinv_new hI1 hnotkey
        obtain ⟨c'', pk'', hrun'', hCI'', hfr'', hF''⟩ :=
          runProg_cinv spec.send.ops ⟨r.requests.assocs, [], r.requests.fresh + 1⟩ []
            hCI0 hown1
        rw [heq] at hrun''
        simp only [Option.some.injEq, Prod.mk.injEq] at hrun''
        obtain ⟨hc, -⟩ := hrun''
        subst hc
        rw [← hr', ← hrq1]
        refine ⟨rfl, rfl, ?_, hnosess⟩
        intro id
        show alookup (terminate c1.assocs c1.runnings) id = _
        rw [alookup_terminate]
        by_cases hmem : id ∈ c1.runnings
        · rw [if_pos hmem]
          obtain ⟨r2, hr2, hsess2⟩ := (hCI''.iffOwn id).mp hmem
          cases hold : alookup r.requests.assocs id with
          | none => rfl
          | some req =>
            have hne : req.session ≠ r.requests.fresh := hnorec id req hold
            have := (hF'' id req hne).mpr hold
            rw [hr2] at this
            cases this
            exact absurd hsess2 hne
        · rw [if_neg hmem]
          cases h1 : alookup c1.assocs id with
          | none =>
            cases hold : alookup r.requests.assocs id with
            | none => rfl
            | some req =>
              have hne : req.session ≠ r.requests.fresh := hnorec id req hold
              have := (hF'' id req hne).mpr hold
              rw [h1] at this
              cases this
          | some r2 =>
            by_cases hsess2 : r2.session = r.requests.fresh
            · exact absurd ((hCI''.iffOwn id).mpr ⟨r2, h1, hsess2⟩) hmem
            · rw [(hF'' id r2 hsess2).mp h1]

def wspec4 : OpSpec :=
  { send := ⟨[SOp.newReq (Cmd.other 1), SOp.newReq (Cmd.other 2)], Except.error "boom"⟩,
    receive := fun _ => ⟨[], Except.ok ⟨false, []⟩⟩,
    retry := fun _ => ⟨[], Except.ok ⟨false, []⟩⟩,
    check := ⟨[], Except.ok ⟨false, []⟩⟩ }

theorem c4_failed_send_unwinds_witness :
    ∃ r evs r' evs',
      runCalls wcalls1 Registry.new = some (r, evs, true) ∧
      wspec4.send.result = Except.error "boom" ∧
      runCall (Call.register wspec4 (some wconn)) r = some (r', evs', true) ∧
      (r'.requests.sessions = r.requests.sessions ∧
       r'.requests.session_request_ids = r.requests.session_request_ids ∧
       (∀ id, alookup r'.requests.assocs id = alookup r.requests.assocs id) ∧
       r.requests.fresh ∉ keys r'.requests.sessions) :=
  ⟨_, _, _, _, rfl, rfl, rfl,
    c4_failed_send_unwinds wcalls1 _ _ wspec4 wconn "boom" _ _ rfl rfl rfl⟩

/-! ### Claim C6 -/

theorem handleFinish_empty {rq : Requests} {sid : Nat} {c2 : SessCtx} {evs : List Event}
    {own : Bool} (h : c2.runnings = []) :
    handleFinish rq sid c2 evs own =
      (⟨aremove rq.sessions sid, aremove rq.session_request_ids sid,
        c2.assocs, c2.fresh⟩, evs, own) := by
  rw [handleFinish, if_pos (List.isEmpty_iff.mpr h)]

theorem handleFinish_nonempty {rq : Requests} {sid : Nat} {c2 : SessCtx} {evs : List Event}
    {own : Bool} (h : c2.runnings ≠ []) :
    handleFinish rq sid c2 evs own =
      ({ rq with
         session_request_ids := ainsert rq.session_request_ids sid c2.runnings,
         assocs := c2.assocs, fresh := c2.fresh }, evs, own) := by
  rw [handleFinish, if_neg (fun hh => h (List.isEmpty_iff.mp hh))]

def wspec6 : OpSpec :=
  { send := ⟨[], Except.ok ⟨false, []⟩⟩,
    receive := fun _ => ⟨[], Except.ok ⟨false, []⟩⟩,
    retry := fun i => ⟨[SOp.popReq i], Except.ok ⟨false, []⟩⟩,
    check := ⟨[], Except.ok ⟨false, []⟩⟩ }

def wop6 : Op := ⟨0, wspec6⟩

def wrq6 : Requests := ⟨[(0, wop6)], [(0, [5])], [(5, ⟨0, ⟨5, Cmd.other 9, 7⟩⟩)], 10⟩

def wpkg6 : Pkg := ⟨5, Cmd.notHandled, "x", some NotHandledReason.tooBusy⟩

/-- C6 counterexample: operation 0 has the outstanding request 5; the
package carries reply code not-handled with reason too-busy (not the
cluster-topology-redirect reason).  The operation's `retry` is invoked with
the original id 5 and *succeeds* (`Ok`, no failure signalled — the event
trace is exactly the retry invocation), yet the operation does **not**
remain active: its retry popped the id without re-issuing it, so the
running-list came back empty and `handle_pkg` removed the operation from
both active maps.  This refutes "if retry succeeds … the operation remains
active" as universally stated. -/
theorem c6_counterexample :
    ∃ rq', Requests.handle_pkg wconn wpkg6 wrq6 =
        some (rq', [Event.retryInvoked 0 5], true) ∧
      alookup rq'.sessions 0 = none ∧
      alookup rq'.session_request_ids 0 = none :=
  ⟨_, rfl, rfl, rfl⟩

/-- C6 amended: a matching not-handled package with a non-redirect reason
makes `handle_pkg` invoke the owning operation's `retry` with the original
request id.  If the retry succeeds, any produced packages are forwarded
(the enqueue event appears exactly when the retry produced packages) and
the operation is removed iff its running-list is empty after the retry
step (it *remains active* iff the retry left requests outstanding).  If
the retry fails, the session is terminated — the running-list is drained,
no record owned by the session survives in the reverse index — and the
operation is removed from the active maps. -/
theorem c6_amended_not_handled_retry (rq : Requests) (conn : Connection) (pkg : Pkg)
    (req : Request) (runnings : List Nat) (op : Op) (c1 : SessCtx) (pk1 : List Tracking)
    (hcor : alookup rq.assocs pkg.correlation = some req)
    (hsri : alookup rq.session_request_ids req.session = some runnings)
    (hop : alookup rq.sessions req.session = some op)
    (hInv : Inv rq)
    (hcmd : pkg.cmd = Cmd.notHandled)
    (hreason : pkg.notHandledReason = some NotHandledReason.notReady ∨
               pkg.notHandledReason = some NotHandledReason.tooBusy)
    (hrun : runProg req.session conn.id (op.spec.retry pkg.correlation).ops
        ⟨ainsert (aremove rq.assocs pkg.correlation) pkg.correlation req,
          runnings, rq.fresh⟩ [] = some (c1, pk1))
    (hown : progOwn req.session conn.id (op.spec.retry pkg.correlation).ops
        ⟨ainsert (aremove rq.assocs pkg.correlation) pkg.correlation req,
          runnings, rq.fresh⟩ [] = true) :
    (∀ outcome, (op.spec.retry pkg.correlation).result = Except.ok outcome →
      ∃ rq' own, Requests.handle_pkg conn pkg rq = some (rq',
          Event.retryInvoked req.session pkg.correlation ::
            (if outcome.produced_pkgs.isEmpty then []
             else [Event.enqueued outcome.produced_pkgs]), own) ∧
        (alookup rq'.sessions req.session = none ↔ c1.runnings = [])) ∧
    (∀ e, (op.spec.retry pkg.correlation).result = Except.error e →
      ∃ rq' own, Requests.handle_pkg conn pkg rq = some (rq',
          [Event.retryInvoked req.session pkg.correlation], own) ∧
        alookup rq'.sessions req.session = none ∧
        alookup rq'.session_request_ids req.session = none ∧
        (∀ id r2, alookup rq'.assocs id = some r2 → r2.session ≠ req.session)) := by
  have hmain : Requests.handle_pkg conn pkg rq =
      (match dispatch conn pkg req.session op
          ⟨ainsert (aremove rq.assocs pkg.correlation) pkg.correlation req,
            runnings, rq.fresh⟩ with
        | none => none
        | some (f, c, evs, own) =>
          some (handleFinish rq req.session
            (if f then SessionImpl.terminateSession c else c) evs own)) := by
    rw [Requests.handle_pkg, hcor]
    show (match alookup rq.session_request_ids req.session with
      | none => none
      | some runnings2 =>
        match alookup rq.sessions req.session with
        | none => none
        | some op2 =>
          match dispatch conn pkg req.session op2
              ⟨ainsert (aremove rq.assocs pkg.correlation) pkg.correlation req,
                runnings2, rq.fresh⟩ with
          | none => none
          | some (f, c, evs, own) =>
            some (handleFinish rq req.session
              (if f then SessionImpl.terminateSession c else c) evs own)) = _
    rw [hsri, hop]
  constructor
  · intro outcome hres
    have hdisp : dispatch conn pkg req.session op
        ⟨ainsert (aremove rq.assocs pkg.correlation) pkg.correlation req,
          runnings, rq.fresh⟩ =
        some (false, c1,
          Event.retryInvoked req.session pkg.correlation ::
            (if outcome.produced_pkgs.isEmpty then []
             else [Event.enqueued outcome.produced_pkgs]),
          progOwn req.session conn.id (op.spec.retry pkg.correlation).ops
            ⟨ainsert (aremove rq.assocs pkg.correlation) pkg.correlation req,
              runnings, rq.fresh⟩ []) := by
      rcases hreason with hre | hre <;> rw [dispatch, hcmd, hre, hrun, hres]
    by_cases hemp : c1.runnings = []
    · refine ⟨⟨aremove rq.sessions req.session, aremove rq.session_request_ids req.session,
        c1.assocs, c1.fresh⟩,
        progOwn req.session conn.id (op.spec.retry pkg.correlation).ops
          ⟨ainsert (aremove rq.assocs pkg.correlation) pkg.correlation req,
            runnings, rq.fresh⟩ [], ?_, ?_⟩
      · rw [hmain, hdisp]
        show some (handleFinish rq req.session c1 _ _) = _
        rw [handleFinish_empty hemp]
      · show alookup (aremove rq.sessions req.session) req.session = none ↔ _
        rw [alookup_aremove, if_pos rfl]
        simp [hemp]
    · refine ⟨{ rq with
        session_request_ids := ainsert rq.session_request_ids req.session c1.runnings,
        assocs := c1.assocs, fresh := c1.fresh },
        progOwn req.session conn.id (op.spec.retry pkg.correlation).ops
          ⟨ainsert (aremove rq.assocs pkg.correlation) pkg.correlation req,
            runnings, rq.fresh⟩ [], ?_, ?_⟩
      · rw [hmain, hdisp]
        show some (handleFinish rq req.session c1 _ _) = _
        rw [handleFinish_nonempty hemp]
      · show alookup rq.sessions req.session = none ↔ _
        rw [hop]
        constructor
        · intro hh
          cases hh
        · intro hh
          exact absurd hh hemp
  · intro e hres
    have hdisp : dispatch conn pkg req.session op
        ⟨ainsert (aremove rq.assocs pkg.correlation) pkg.correlation req,
          runnings, rq.fresh⟩ =
        some (true, c1, [Event.retryInvoked req.session pkg.correlation],
          progOwn req.session conn.id (op.spec.retry pkg.correlation).ops
            ⟨ainsert (aremove rq.assocs pkg.correlation) pkg.correlation req,
              runnings, rq.fresh⟩ []) := by
      rcases hreason with hre | hre <;> rw [dispatch, hcmd, hre, hrun, hres]
    refine ⟨⟨aremove rq.sessions req.session, aremove rq.session_request_ids req.session,
      terminate c1.assocs c1.runnings, c1.fresh⟩,
      progOwn req.session conn.id (op.spec.retry pkg.correlation).ops
          ⟨ainsert (aremove rq.assocs pkg.correlation) pkg.correlation req,
            runnings, rq.fresh⟩ [], ?_, ?_, ?_, ?_⟩
    · rw [hmain, hdisp]
      show some (handleFinish rq req.session (SessionImpl.terminateSession c1) _ _) = _
      rw [handleFinish_empty rfl]
      rfl
    · show alookup (aremove rq.sessions req.session) req.session = none
      rw [alookup_aremove, if_pos rfl]
    · show alookup (aremove rq.session_request_ids req.session) req.session = none
      rw [alookup_aremove, if_pos rfl]
    · have hC0 : CInv req.session
          ⟨ainsert (aremove rq.assocs pkg.correlation) pkg.correlation req,
            runnings, rq.fresh⟩ [] :=
        inv_cinv (inv_reinsert hInv hcor) hsri
      obtain ⟨c', pk', hrun', hC1, -, -⟩ :=
        runProg_cinv (op.spec.retry pkg.correlation).ops _ _ hC0 hown
      rw [hrun] at hrun'
      simp only [Option.some.injEq, Prod.mk.injEq] at hrun'
      obtain ⟨hc, -⟩ := hrun'
      rw [← hc] at hC1
      intro id r2 h hsess
      have h2 : alookup (terminate c1.assocs c1.runnings) id = some r2 := h
      rw [alookup_terminate] at h2
      by_cases hmem : id ∈ c1.runnings
      · rw [if_pos hmem] at h2
        cases h2
      · rw [if_neg hmem] at h2
        exact hmem ((hC1.iffOwn id).mpr ⟨r2, h2, hsess⟩)

def wspec6b : OpSpec :=
  { send := ⟨[], Except.ok ⟨false, []⟩⟩,
    receive := fun _ => ⟨[], Except.ok ⟨false, []⟩⟩,
    retry := fun i => ⟨[SOp.popReq i, SOp.reuseReq 0], Except.ok ⟨false, []⟩⟩,
    check := ⟨[], Except.ok ⟨false, []⟩⟩ }

def wop6b : Op := ⟨0, wspec6b⟩

def wrq6b : Requests := ⟨[(0, wop6b)], [(0, [5])], [(5, ⟨0, ⟨5, Cmd.other 9, 7⟩⟩)], 10⟩

theorem c6_amended_not_handled_retry_witness :
    alookup wrq6b.assocs wpkg6.correlation = some ⟨0, ⟨5, Cmd.other 9, 7⟩⟩ ∧
    alookup wrq6b.session_request_ids 0 = some [5] ∧
    alookup wrq6b.sessions 0 = some wop6b ∧
    Inv wrq6b ∧
    wpkg6.cmd = Cmd.notHandled ∧
    (wpkg6.notHandledReason = some NotHandledReason.notReady ∨
     wpkg6.notHandledReason = some NotHandledReason.tooBusy) ∧
    progOwn 0 wconn.id (wop6b.spec.retry wpkg6.correlation).ops
      ⟨[(5, ⟨0, ⟨5, Cmd.other 9, 7⟩⟩)], [5], 10⟩ [] = true ∧
    ((∀ outcome, (wop6b.spec.retry wpkg6.correlation).result = Except.ok outcome →
      ∃ rq' own, Requests.handle_pkg wconn wpkg6 wrq6b = some (rq',
          Event.retryInvoked 0 wpkg6.correlation ::
            (if outcome.produced_pkgs.isEmpty then []
             else [Event.enqueued outcome.produced_pkgs]), own) ∧
        (alookup rq'.sessions 0 = none ↔
          (⟨[(5, ⟨0, ⟨5, Cmd.other 9, 7⟩⟩)], [5], 10⟩ : SessCtx).runnings = [])) ∧
     (∀ e, (wop6b.spec.retry wpkg6.correlation).result = Except.error e →
      ∃ rq' own, Requests.handle_pkg wconn wpkg6 wrq6b = some (rq',
          [Event.retryInvoked 0 wpkg6.correlation], own) ∧
        alookup rq'.sessions 0 = none ∧
        alookup rq'.session_request_ids 0 = none ∧
        (∀ id r2, alookup rq'.assocs id = some r2 → r2.session ≠ 0))) :=
  ⟨rfl, rfl, rfl, by constructor <;> decide, rfl, Or.inr rfl, rfl,
    c6_amended_not_handled_retry wrq6b wconn wpkg6 ⟨0, ⟨5, Cmd.other 9, 7⟩⟩ [5] wop6b
      ⟨[(5, ⟨0, ⟨5, Cmd.other 9, 7⟩⟩)], [5], 10⟩ [] rfl rfl rfl
      (by constructor <;> decide) rfl (Or.inr rfl) rfl rfl⟩

/-! ### Claim C9 -/

def sendIdOf : Event → Option Nat
  | Event.sendInvoked i => some i
  | _ => none

theorem register_send_event {conn : Connection} {op : Op} {rq rq' : Requests}
    {evs : List Event} {b : Bool}
    (h : Requests.register conn op rq = some (rq', evs, b)) :
    evs.filterMap sendIdOf = [op.id] := by
  rw [Requests.register] at h
  split at h
  · cases h
  · split at h <;>
      (simp only [Option.some.injEq, Prod.mk.injEq] at h
       rw [← h.2.1]
       rfl)

theorem registerAll_send_events {conn : Connection} :
    ∀ {ops : List Op} {rq rq' : Requests} {evs : List Event} {b : Bool},
    registerAll conn ops rq = some (rq', evs, b) →
    evs.filterMap sendIdOf = ops.map Op.id := by
  intro ops
  induction ops with
  | nil =>
    intro rq rq' evs b h
    rw [registerAll] at h
    simp only [Option.some.injEq, Prod.mk.injEq] at h
    rw [← h.2.1]
    rfl
  | cons op rest ih =>
    intro rq rq' evs b h
    rw [registerAll] at h
    split at h
    · cases h
    · next rq1 e1 b1 heq1 =>
      split at h
      · cases h
      · next rq2 e2 b2 heq2 =>
        simp only [Option.some.injEq, Prod.mk.injEq] at h
        rw [← h.2.1, List.filterMap_append, register_send_event heq1, ih heq2]
        rfl

theorem sweepStep_send_free {connId : Nat} {st st' : SweepSt} {e : Nat × Op}
    (h : sweepStep connId st e = some st') :
    st'.evs.filterMap sendIdOf = st.evs.filterMap sendIdOf := by
  rw [sweepStep] at h
  split at h
  · cases h
  · split at h
    · cases h
    · split at h
      · split at h
        · simp only [Option.some.injEq] at h
          rw [← h]
          simp [List.filterMap_append, sendIdOf]
        · simp only [Option.some.injEq] at h
          rw [← h]
          simp only [List.filterMap_append]
          split <;> simp [sendIdOf]
      · simp only [Option.some.injEq] at h
        rw [← h]
        simp [List.filterMap_append, sendIdOf]

theorem sweepGo_send_free {connId : Nat} : ∀ {l : List (Nat × Op)} {st stF : SweepSt},
    sweepGo connId l st = some stF →
    stF.evs.filterMap sendIdOf = st.evs.filterMap sendIdOf := by
  intro l
  induction l with
  | nil =>
    intro st stF h
    rw [sweepGo] at h
    injection h with h
    rw [h]
  | cons e rest ih =>
    intro st stF h
    rw [sweepGo] at h
    split at h
    · next st' heq =>
      rw [ih h, sweepStep_send_free heq]
    · cases h

theorem check_send_free {conn : Connection} {rq rq' : Requests} {evs : List Event}
    {b : Bool} (h : Requests.check_and_retry conn rq = some (rq', evs, b)) :
    evs.filterMap sendIdOf = [] := by
  rw [Requests.check_and_retry] at h
  split at h
  · cases h
  · next st hgo =>
    simp only [Option.some.injEq, Prod.mk.injEq] at h
    rw [← h.2.1]
    exact sweepGo_send_free hgo

/-- C9: with a non-empty awaiting queue, `Registry::check_and_retry` first
runs the periodic sweep over the active operations (the sweep's events come
first and contain no `send` invocation) and then registers every queued
operation against the connection, popping from the end of the queue: the
`send` invocations happen exactly in the reverse of queueing order, and the
awaiting queue is empty afterwards. -/
theorem c9_drain_reversed (r : Registry) (conn : Connection) (r' : Registry)
    (evs : List Event) (b : Bool)
    (_hne : r.awaiting ≠ [])
    (h : Registry.check_and_retry conn r = some (r', evs, b)) :
    r'.awaiting = [] ∧
    (∃ rq1 e1 b1 e2 b2,
      Requests.check_and_retry conn r.requests = some (rq1, e1, b1) ∧
      registerAll conn r.awaiting.reverse rq1 = some (r'.requests, e2, b2) ∧
      evs = e1 ++ e2 ∧
      e1.filterMap sendIdOf = [] ∧
      e2.filterMap sendIdOf = (r.awaiting.map Op.id).reverse) := by
  rw [Registry.check_and_retry] at h
  split at h
  · cases h
  · next rq1 e1 b1 heq1 =>
    split at h
    · cases h
    · next rq2 e2 b2 heq2 =>
      simp only [Option.some.injEq, Prod.mk.injEq] at h
      obtain ⟨hr', hevs, -⟩ := h
      refine ⟨by rw [← hr'], rq1, e1, b1, e2, b2, heq1, ?_, hevs.symm,
        check_send_free heq1, ?_⟩
      · rw [← hr']
        exact heq2
      · rw [registerAll_send_events heq2, ← List.map_reverse]

def wr9 : Registry := ⟨⟨[], [], [], 2⟩, [⟨0, wspec1⟩, ⟨1, wspec1⟩]⟩

theorem c9_drain_reversed_witness :
    wr9.awaiting ≠ [] ∧ ∃ r' evs b, Registry.check_and_retry wconn wr9 = some (r', evs, b) ∧
      (r'.awaiting = [] ∧
       (∃ rq1 e1 b1 e2 b2,
         Requests.check_and_retry wconn wr9.requests = some (rq1, e1, b1) ∧
         registerAll wconn wr9.awaiting.reverse rq1 = some (r'.requests, e2, b2) ∧
         evs = e1 ++ e2 ∧
         e1.filterMap sendIdOf = [] ∧
         e2.filterMap sendIdOf = (wr9.awaiting.map Op.id).reverse)) :=
  ⟨List.cons_ne_nil _ _, _, _, _, rfl,
    c9_drain_reversed wr9 wconn _ _ _ (List.cons_ne_nil _ _) rfl⟩

end Registryv
